import Mathlib

/-!
Verification development for the `utmatic/backend-idd` PDF hyperlink/UTM
rewriting engine (`src/main.py`).

The Python source is shallowly embedded below.  Pure helpers
(`format_pattern_to_regex`, `normalize`, `extract_last_path_segment`, the URL
synthesis expressions) become Lean functions; the stateful per-page processing
(`process_pdf_logic`) becomes explicit state passing over a `RunState` record;
the `/process` endpoint's error mapping becomes a total function into a
response datatype.  External collaborators are modelled at the granularity the
code observes them:

* `fitz` (PyMuPDF) pages are records of the data the code reads from them —
  existing link annotations, words with bounding boxes, block/line/span trees,
  and a textbox oracle; link insertion/deletion and drawing are recorded as
  explicit mutation lists.  Floating-point page coordinates are idealised as
  exact rationals.
* `urllib.parse.quote` and the path component of `urllib.parse.urlparse` are
  reimplemented (UTF-8 percent-encoding with safe set `/` plus unreserved;
  scheme/netloc/fragment/query/params splitting as in CPython's `urlsplit` +
  `_splitparams`).
* `unicodedata.normalize("NFKD", ·)` is modelled by a finite table holding the
  Unicode decompositions of every non-ASCII character this development
  evaluates (NBSP, non-breaking hyphen, the fi ligature, é); identity
  elsewhere.  Python's `str.strip`/`str.split` whitespace set is modelled by
  `pyIsSpace`.
* Python's `re` with `IGNORECASE` acts on the compiled pattern shapes the code
  emits (`\d`, `[A-Za-z]`, `\d{k,}`, `[A-Za-z]{k,}`, escaped literals), so
  matching is defined directly on a token list; `\d` is modelled as the ASCII
  digits and case-insensitivity as ASCII case folding.
-/

namespace Utmatic

/-! ## Basic character and string utilities -/

/-- ASCII lowercase conversion; models Python `str.lower`/`re.IGNORECASE`
case folding on the ASCII range (65-90 are `A`-`Z`). -/
def asciiLower (c : Char) : Char :=
  if 65 ≤ c.toNat && c.toNat ≤ 90 then Char.ofNat (c.toNat + 32) else c

/-- ASCII letter test; exactly the character class `[A-Za-z]`
(65-90 are `A`-`Z`, 97-122 are `a`-`z`). -/
def isAsciiLetter (c : Char) : Bool :=
  (65 ≤ c.toNat && c.toNat ≤ 90) || (97 ≤ c.toNat && c.toNat ≤ 122)

/-- Python `str.isspace` / default `str.strip` & `str.split` whitespace set. -/
def pyIsSpace (c : Char) : Bool :=
  let n := c.toNat
  (9 ≤ n && n ≤ 13) || n == 32 || (28 ≤ n && n ≤ 31) || n == 0x85 || n == 0xa0 ||
  n == 0x1680 || (0x2000 ≤ n && n ≤ 0x200a) || n == 0x2028 || n == 0x2029 ||
  n == 0x202f || n == 0x205f || n == 0x3000

/-- Remove elements satisfying `p` from both ends of a list. -/
def stripEnds (p : Char → Bool) (l : List Char) : List Char :=
  ((l.dropWhile p).reverse.dropWhile p).reverse

/-- Python `str.strip()` (no argument: strips whitespace). -/
def pyStrip (s : String) : String :=
  String.mk (stripEnds pyIsSpace s.data)

/-- Python `c in s` membership test for a single character. -/
def containsChar (s : String) (c : Char) : Bool :=
  s.data.contains c

/-- Auxiliary for `pySplitWs`: accumulates the current word (reversed). -/
def splitWsAux : List Char → List Char → List String
  | [], acc => if acc.isEmpty then [] else [String.mk acc.reverse]
  | c :: rest, acc =>
    if pyIsSpace c then
      if acc.isEmpty then splitWsAux rest []
      else String.mk acc.reverse :: splitWsAux rest []
    else splitWsAux rest (c :: acc)

/-- Python `str.split()` with no argument: split on whitespace runs,
discarding empty pieces. -/
def pySplitWs (s : String) : List String :=
  splitWsAux s.data []

/-- Auxiliary for `splitChar`: accumulates the current piece (reversed). -/
def splitCharAux (sep : Char) : List Char → List Char → List String
  | [], acc => [String.mk acc.reverse]
  | c :: rest, acc =>
    if c == sep then String.mk acc.reverse :: splitCharAux sep rest []
    else splitCharAux sep rest (c :: acc)

/-- Python `str.split(sep)` for a one-character separator (keeps empties). -/
def splitChar (sep : Char) (s : String) : List String :=
  splitCharAux sep s.data []

/-! ## urllib.parse.quote -/

/-- UTF-8 encoding of a character, as a list of byte values. -/
def utf8Bytes (c : Char) : List Nat :=
  let n := c.toNat
  if n < 0x80 then [n]
  else if n < 0x800 then [0xC0 + n / 0x40, 0x80 + n % 0x40]
  else if n < 0x10000 then
    [0xE0 + n / 0x1000, 0x80 + (n / 0x40) % 0x40, 0x80 + n % 0x40]
  else
    [0xF0 + n / 0x40000, 0x80 + (n / 0x1000) % 0x40,
     0x80 + (n / 0x40) % 0x40, 0x80 + n % 0x40]

/-- Bytes `urllib.parse.quote` leaves unescaped with its default `safe='/'`:
ASCII alphanumerics, `_.-~`, and `/`. -/
def isQuoteSafeByte (b : Nat) : Bool :=
  (48 ≤ b && b ≤ 57) || (65 ≤ b && b ≤ 90) || (97 ≤ b && b ≤ 122) ||
  b == 95 || b == 46 || b == 45 || b == 126 || b == 47

/-- Uppercase hexadecimal digit for `n < 16`. -/
def hexDigitChar (n : Nat) : Char :=
  if n < 10 then Char.ofNat (48 + n) else Char.ofNat (55 + n)

/-- Percent-encode a single byte (or keep it if safe). -/
def quoteByte (b : Nat) : List Char :=
  if isQuoteSafeByte b then [Char.ofNat b]
  else ['%', hexDigitChar (b / 16), hexDigitChar (b % 16)]

/-- Model of `urllib.parse.quote(s)` (default `safe='/'`): UTF-8 encode, then
percent-encode every unsafe byte with uppercase hex. -/
def quote (s : String) : String :=
  String.mk (((s.data.map utf8Bytes).flatten.map quoteByte).flatten)

/-! ## urllib.parse.urlparse — path component -/

/-- Characters allowed in a URL scheme after the first (CPython
`scheme_chars`). -/
def isSchemeChar (c : Char) : Bool :=
  isAsciiLetter c || c.isDigit || c == '+' || c == '-' || c == '.'

/-- Drop a leading `scheme:` the way CPython `urlsplit` does: only when a `:`
occurs at index `i > 0` and everything before it is alpha-then-scheme-chars. -/
def dropSchemeL (s : List Char) : List Char :=
  match s.findIdx? (fun c => c == ':') with
  | none => s
  | some i =>
    if 0 < i &&
       (match s.head? with
        | some h => isAsciiLetter h
        | none => false) &&
       (s.take i).all isSchemeChar
    then s.drop (i + 1)
    else s

/-- Drop a leading `//netloc` (everything up to the next `/`, `?` or `#`). -/
def dropNetlocL : List Char → List Char
  | '/' :: '/' :: rest => rest.dropWhile (fun c => !(c == '/' || c == '?' || c == '#'))
  | s => s

/-- CPython `urlparse._splitparams` applied to the path: when the path
contains `;`, cut at the first `;` after the last `/` (or the first `;` when
there is no `/`). Returns the path part only. -/
def splitParamsPath (p : List Char) : List Char :=
  if p.contains ';' then
    if p.contains '/' then
      match (p.reverse.findIdx? (fun c => c == '/')) with
      | none => p
      | some j =>
        let ls := p.length - 1 - j
        match ((p.drop ls).findIdx? (fun c => c == ';')) with
        | none => p
        | some k => p.take (ls + k)
    else p.take ((p.findIdx? (fun c => c == ';')).getD p.length)
  else p

/-- Model of `urllib.parse.urlparse(url).path`: remove tab/CR/LF, strip
scheme, strip netloc, strip fragment, strip query, strip params. -/
def urlparse_path (url : String) : String :=
  let s0 := url.data.filter (fun c => !(c == '\t' || c == '\r' || c == '\n'))
  let s1 := dropSchemeL s0
  let s2 := dropNetlocL s1
  let s3 := s2.takeWhile (fun c => !(c == '#'))
  let s4 := s3.takeWhile (fun c => !(c == '?'))
  String.mk (splitParamsPath s4)

/-- `extract_last_path_segment` from `src/main.py`: the last `/`-separated
segment of the URL's path (after stripping surrounding slashes), or the
fallback `"link"` when the stripped path is empty. -/
def extract_last_path_segment (url : String) : String :=
  let path := (urlparse_path url).data
  let p := ((path.dropWhile (fun c => c == '/')).reverse.dropWhile (fun c => c == '/')).reverse
  if p.isEmpty then "link"
  else String.mk ((p.reverse.takeWhile (fun c => !(c == '/'))).reverse)

/-! ## normalize -/

/-- Finite table of `unicodedata.normalize("NFKD", ·)` single-character
decompositions for the non-ASCII characters this development evaluates:
U+00A0 NO-BREAK SPACE decomposes to SPACE, U+2011 NON-BREAKING HYPHEN to
U+2010 HYPHEN, U+FB01 LATIN SMALL LIGATURE FI to `fi`, U+00E9 é to
`e` + U+0301; the en dash U+2013 and em dash U+2014 have no decomposition.
Identity on every other character. -/
def nfkdChar (c : Char) : List Char :=
  if c == '\u00A0' then [' ']
  else if c == '\u2011' then ['\u2010']
  else if c == '\uFB01' then ['f', 'i']
  else if c == '\u00E9' then ['e', '\u0301']
  else [c]

/-- NFKD over a character list via the table `nfkdChar`. -/
def nfkdL (l : List Char) : List Char :=
  (l.map nfkdChar).flatten

/-- Python `str.replace(a, b)` for single characters. -/
def replaceCharL (a b : Char) (l : List Char) : List Char :=
  l.map (fun c => if c == a then b else c)

/-- `normalize` from `src/main.py`: NFKD, then replace en dash, em dash,
NO-BREAK SPACE and NON-BREAKING HYPHEN, then `strip()`. -/
def normalize (s : String) : String :=
  String.mk (stripEnds pyIsSpace
    (replaceCharL '\u2011' '-'
      (replaceCharL '\u00A0' ' '
        (replaceCharL '\u2014' '-'
          (replaceCharL '\u2013' '-' (nfkdL s.data))))))

/-- Modelled from the spec: "Text is Unicode-normalized (canonical
decomposition + recombination)" — i.e. NFC — "and has common typographic
variants folded (en/em dash → hyphen, non-breaking space → space,
non-breaking hyphen → hyphen)" before being stripped.  On every character in
the finite table of this development, canonical decomposition followed by
recombination is the identity (none of U+00A0, U+2011, U+FB01 has a canonical
decomposition, and é recomposes to itself), so the NFC stage is the identity
here.  This definition exists only to be compared against `normalize`. -/
def specNormalize (s : String) : String :=
  String.mk (stripEnds pyIsSpace
    (replaceCharL '\u2011' '-'
      (replaceCharL '\u00A0' ' '
        (replaceCharL '\u2014' '-'
          (replaceCharL '\u2013' '-' s.data)))))

/-! ## format_pattern_to_regex -/

/-- The regex fragments `format_pattern_to_regex` emits: `\d`, `[A-Za-z]`,
`\d{k,}`, `[A-Za-z]{k,}` and a regex-escaped literal character. -/
inductive RTok where
  | digit : RTok
  | letter : RTok
  | digitAtLeast : Nat → RTok
  | letterAtLeast : Nat → RTok
  | lit : Char → RTok
deriving DecidableEq, Repr

/-- Python `c in "NnLl"`. -/
def isNLChar (c : Char) : Bool :=
  c == 'N' || c == 'n' || c == 'L' || c == 'l'

/-- Python `run_char in "Nn"`. -/
def isNChar (c : Char) : Bool :=
  c == 'N' || c == 'n'

/-- Fuel-indexed worker for `format_pattern_to_regex`; the fuel only serves
to make the recursion structural (every step consumes at least one
character, so `length + 1` fuel always suffices). -/
def fptrAux : Nat → List Char → List RTok
  | 0, _ => []
  | _ + 1, [] => []
  | fuel + 1, c :: rest =>
    if isNLChar c then
      if (rest.dropWhile (fun x => asciiLower x == asciiLower c)).head? == some '+' then
        (if isNChar c then
            RTok.digitAtLeast ((rest.takeWhile (fun x => asciiLower x == asciiLower c)).length + 1)
          else
            RTok.letterAtLeast ((rest.takeWhile (fun x => asciiLower x == asciiLower c)).length + 1))
          :: fptrAux fuel (rest.dropWhile (fun x => asciiLower x == asciiLower c)).tail
      else
        List.replicate ((rest.takeWhile (fun x => asciiLower x == asciiLower c)).length + 1)
            (if isNChar c then RTok.digit else RTok.letter)
          ++ fptrAux fuel (rest.dropWhile (fun x => asciiLower x == asciiLower c))
    else
      RTok.lit c :: fptrAux fuel rest

/-- `format_pattern_to_regex` from `src/main.py`, as the token list of the
regex string it builds: scan left to right; on an `N`/`L` token measure the
run of identical-class characters (case-insensitively); if the run is
immediately followed by `+` emit `{class}{run_len,}`, else emit `run_len`
copies of the class; any other character is an escaped literal. -/
def format_pattern_to_regex (fmt : List Char) : List RTok :=
  fptrAux (fmt.length + 1) fmt

/-- Matching semantics of the emitted token list under `re.IGNORECASE`:
`\d` is a digit, `[A-Za-z]` an ASCII letter, `\d{k,}`/`[A-Za-z]{k,}` at
least `k` of the class (with backtracking over the run length), and an
escaped literal matches its character up to ASCII case folding. -/
def tokensMatch : List RTok → List Char → Bool
  | [], s => s.isEmpty
  | RTok.digit :: _, [] => false
  | RTok.digit :: ts, c :: s => c.isDigit && tokensMatch ts s
  | RTok.letter :: _, [] => false
  | RTok.letter :: ts, c :: s => isAsciiLetter c && tokensMatch ts s
  | RTok.lit _ :: _, [] => false
  | RTok.lit a :: ts, c :: s => (asciiLower c == asciiLower a) && tokensMatch ts s
  | RTok.digitAtLeast k :: ts, s =>
    let m := (s.takeWhile Char.isDigit).length
    (List.range (m + 1)).any (fun n => decide (k ≤ n) && tokensMatch ts (s.drop n))
  | RTok.letterAtLeast k :: ts, s =>
    let m := (s.takeWhile isAsciiLetter).length
    (List.range (m + 1)).any (fun n => decide (k ≤ n) && tokensMatch ts (s.drop n))

/-- `re.compile(rf"^{regex}$", re.IGNORECASE).fullmatch(s)` is non-None iff
the token list matches the whole string. -/
def fullmatchAnchored (ts : List RTok) (s : List Char) : Bool :=
  tokensMatch ts s

/-- `re.compile(rf"^{regex}$", re.IGNORECASE).search(s)` with the matched
group: since the pattern is anchored with `^`, a match can only start at
position 0, and `$` accepts either the end of the string or the position
just before a single trailing newline. -/
def searchAnchored (ts : List RTok) (s : List Char) : Option (List Char) :=
  if tokensMatch ts s then some s
  else if s.getLast? == some '\n' && tokensMatch ts s.dropLast then some s.dropLast
  else none

/-- Per-character token translation: the shape `format_pattern_to_regex`
gives a single format character when no `+` is involved. -/
def charTok (c : Char) : RTok :=
  if isNChar c then RTok.digit
  else if c == 'L' || c == 'l' then RTok.letter
  else RTok.lit c

/-- Per-position shape check used to state claim C1: digit where the format
has `N`, ASCII letter where it has `L`, the literal character up to ASCII
case elsewhere. -/
def charShapeMatches (f c : Char) : Bool :=
  if isNChar f then c.isDigit
  else if f == 'L' || f == 'l' then isAsciiLetter c
  else asciiLower c == asciiLower f

/-! ## The page data model (observable surface of a `fitz` page) -/

/-- A rectangle (`fitz.Rect`), with coordinates idealised as rationals. -/
structure Rect where
  x0 : ℚ
  y0 : ℚ
  x1 : ℚ
  y1 : ℚ
deriving DecidableEq, Repr

/-- One entry of `page.get_text("words")`: `(x0, y0, x1, y1, text, ...)`. -/
structure Word where
  x0 : ℚ
  y0 : ℚ
  x1 : ℚ
  y1 : ℚ
  text : String
deriving DecidableEq, Repr

/-- One span of `page.get_text("dict")`, with its text and bounding box. -/
structure Span where
  text : String
  bbox : Rect
deriving DecidableEq, Repr

/-- One line of `page.get_text("dict")`: its spans. -/
structure Line where
  spans : List Span
deriving DecidableEq, Repr

/-- One block of `page.get_text("dict")`: its lines. -/
structure Block where
  lines : List Line
deriving DecidableEq, Repr

/-- One entry of `page.get_links()`: the `from` rectangle, and the `uri`
when the link dictionary has one. -/
structure LinkIn where
  uri : Option String
  rect : Rect
deriving DecidableEq, Repr

/-- The data `process_pdf_logic` reads from one PDF page: existing link
annotations, the word list, the block/line/span tree, and
`page.get_textbox` as an oracle from rectangles to visible text. -/
structure Page where
  links : List LinkIn
  words : List Word
  blocks : List Block
  textbox : Rect → String

/-- A link annotation written by `insert_link`: `from` rectangle, URI,
`kind` (always 2, `LINK_URI`) and page number. -/
structure LinkOut where
  rect : Rect
  uri : String
  kind : Nat
  page : Nat
deriving DecidableEq, Repr

/-- A `draw_line` call: endpoints, colour and width. -/
structure DrawCmd where
  p1 : ℚ × ℚ
  p2 : ℚ × ℚ
  color : ℚ × ℚ × ℚ
  width : ℚ
deriving DecidableEq, Repr

/-- The running state of one `process_pdf_logic` call: the mutations applied
to the final and preview documents (keyed by page number), `red_rects`,
`already_linked` and `link_count`.  `already_linked` is re-initialised at the
start of every `links_and_utm` page, exactly as in the source. -/
structure RunState where
  finalInserted : List (Nat × LinkOut)
  finalDeleted : List (Nat × LinkIn)
  finalDrawings : List (Nat × DrawCmd)
  previewInserted : List (Nat × LinkOut)
  previewDrawings : List (Nat × DrawCmd)
  redRects : List (Nat × Rect)
  alreadyLinked : List (Nat × Rect)
  linkCount : Nat
deriving DecidableEq, Repr

/-- The state at the top of `process_pdf_logic`: no mutations, no rects,
zero links. -/
def initState : RunState :=
  ⟨[], [], [], [], [], [], [], 0⟩

/-- Errors `process_pdf_logic` can raise: `ValueError` (validation) or any
other internal exception. -/
inductive PdfError where
  | valueError : String → PdfError
  | internal : String → PdfError
deriving DecidableEq, Repr

/-- The `format_map` argument as `process_pdf_logic` observes it: falsy
(`None` or empty), a string `json.loads` rejects, or a parsed JSON object
(an insertion-ordered list of key-value pairs). -/
inductive FormatMapInput where
  | missing : FormatMapInput
  | malformed : FormatMapInput
  | parsed : List (String × String) → FormatMapInput
deriving DecidableEq, Repr

/-! ## URL synthesis -/

/-- `utm_base` (line 108): `utm_source=…&utm_medium=…&utm_campaign=…` with
each value percent-encoded. -/
def utmBase (source medium campaign : String) : String :=
  "utm_source=" ++ quote source ++ "&utm_medium=" ++ quote medium ++
    "&utm_campaign=" ++ quote campaign

/-- The URL synthesis expression shared by every site in
`process_pdf_logic`: append the UTM query (with `utm_content`) to the URL
built so far, joined with `&` when that URL already contains a `?` and with
`?` otherwise. -/
def appendUtm (urlSoFar source medium campaign content : String) : String :=
  urlSoFar ++ (if containsChar urlSoFar '?' then "&" else "?") ++
    utmBase source medium campaign ++ "&utm_content=" ++ quote content

/-! ## Link insertion and drawing -/

/-- `int_to_rgb` from `src/main.py`. -/
def int_to_rgb (colorInt : Nat) : ℚ × ℚ × ℚ :=
  (((colorInt >>> 16) &&& 255 : Nat) / 255,
   ((colorInt >>> 8) &&& 255 : Nat) / 255,
   ((colorInt &&& 255 : Nat) : ℚ) / 255)

/-- The underline decoration drawn beneath a span bounding box: black,
width 0.5, at `y0 + 0.9 * (y1 - y0)`. -/
def underlineCmd (b : Rect) : DrawCmd :=
  { p1 := (b.x0, b.y0 + (b.y1 - b.y0) * (9 / 10))
    p2 := (b.x1, b.y0 + (b.y1 - b.y0) * (9 / 10))
    color := int_to_rgb 0
    width := 1 / 2 }

/-- The insertion block shared by the `links_and_utm` passes: insert the
link on both documents, record the red rect, mark `(page, rect)` as already
linked, bump the counter. -/
def insertLinkBoth (n : Nat) (r : Rect) (url : String) (st : RunState) : RunState :=
  { st with
    finalInserted := st.finalInserted ++ [(n, ⟨r, url, 2, n⟩)]
    previewInserted := st.previewInserted ++ [(n, ⟨r, url, 2, n⟩)]
    redRects := st.redRects ++ [(n, r)]
    alreadyLinked := st.alreadyLinked ++ [(n, r)]
    linkCount := st.linkCount + 1 }

/-- Record a `draw_line` underline on the final document. -/
def drawUnderline (n : Nat) (b : Rect) (st : RunState) : RunState :=
  { st with finalDrawings := st.finalDrawings ++ [(n, underlineCmd b)] }

/-- Span-pass insertion: like `insertLinkBoth`, plus the underline on the
final document when `underline` is requested. -/
def insertSpanLink (n : Nat) (b : Rect) (url : String) (u : Bool) (st : RunState) : RunState :=
  let st1 := insertLinkBoth n b url st
  if u then drawUnderline n b st1 else st1

/-! ## utm_only pass -/

/-- One iteration of the `utm_only` loop over `page.get_links()`: skip links
without a `uri`; otherwise read the visible text under the rectangle,
choose `utm_content` (last path segment when the text contains a space,
else the text verbatim), rewrite the URL, delete the old annotation and
insert the new one on both documents.  There is no `already_linked` check
in this branch. -/
def utmOnlyStep (source medium campaign : String) (n : Nat) (page : Page)
    (st : RunState) (link : LinkIn) : RunState :=
  match link.uri with
  | none => st
  | some original =>
    let rect := link.rect
    let visible := pyStrip (page.textbox rect)
    let utm_val :=
      if containsChar visible ' ' then extract_last_path_segment original else visible
    let updated := appendUtm original source medium campaign utm_val
    { st with
      finalDeleted := st.finalDeleted ++ [(n, link)]
      finalInserted := st.finalInserted ++ [(n, ⟨rect, updated, 2, n⟩)]
      previewInserted := st.previewInserted ++ [(n, ⟨rect, updated, 2, n⟩)]
      redRects := st.redRects ++ [(n, rect)]
      linkCount := st.linkCount + 1 }

/-- The `utm_only` loop over the page's existing links. -/
def utmOnlyPass (source medium campaign : String) (n : Nat) (page : Page) :
    List LinkIn → RunState → RunState
  | [], st => st
  | l :: ls, st =>
    utmOnlyPass source medium campaign n page ls
      (utmOnlyStep source medium campaign n page st l)

/-! ## links_and_utm passes -/

/-- Pattern compilation (lines 166-171): split each key of the format map
on commas, strip each piece, compile each to an anchored case-insensitive
pattern paired with the key's URL. -/
def compilePatterns (fd : List (String × String)) : List (List RTok × String) :=
  (fd.map (fun kv =>
    ((splitChar ',' kv.1).map (fun f => pyStrip f)).map
      (fun fmt => (format_pattern_to_regex fmt.data, kv.2)))).flatten

/-- The rectangle of a word entry. -/
def wordRect (w : Word) : Rect :=
  ⟨w.x0, w.y0, w.x1, w.y1⟩

/-- Inner pattern loop of the word-level pass.  On a full match: if the
`(page, rect)` pair was already linked, `continue` to the next pattern;
otherwise insert (no underline in this pass) and `break`. -/
def wordPatLoop (source medium campaign : String) (n : Nat) (rect : Rect)
    (cleanText : String) : List (List RTok × String) → RunState → RunState
  | [], st => st
  | (pat, url) :: ps, st =>
    if fullmatchAnchored pat cleanText.data then
      if (n, rect) ∈ st.alreadyLinked then
        wordPatLoop source medium campaign n rect cleanText ps st
      else
        insertLinkBoth n rect
          (appendUtm (url ++ cleanText) source medium campaign cleanText) st
    else wordPatLoop source medium campaign n rect cleanText ps st

/-- The word-level pass: for each word, normalize its text and try every
pattern. -/
def wordPass (source medium campaign : String) (n : Nat)
    (patterns : List (List RTok × String)) : List Word → RunState → RunState
  | [], st => st
  | w :: ws, st =>
    wordPass source medium campaign n patterns ws
      (wordPatLoop source medium campaign n (wordRect w) (normalize w.text) patterns st)

/-- Span-equality loop of the line-level pass: find a span whose text equals
the whole matched string; `continue` past already-linked rectangles (leaving
`found` false); insert with optional underline and report `found` on
success. -/
def spanEqLoop (source medium campaign : String) (n : Nat) (url matchStr : String)
    (u : Bool) : List (String × Rect) → RunState → RunState × Bool
  | [], st => (st, false)
  | (spanText, bbox) :: rest, st =>
    if matchStr == spanText && decide (0 < matchStr.length) then
      if (n, bbox) ∈ st.alreadyLinked then
        spanEqLoop source medium campaign n url matchStr u rest st
      else
        (insertSpanLink n bbox
          (appendUtm (url ++ matchStr) source medium campaign matchStr) u st, true)
    else spanEqLoop source medium campaign n url matchStr u rest st

/-- Token loop of the fallback pass: try each whitespace token of the match
against one span's text; `continue` past already-linked rectangles; insert
with optional underline and `break` (skip the remaining tokens) on
success. -/
def fallbackTokLoop (source medium campaign : String) (n : Nat) (url : String)
    (u : Bool) (spanText : String) (bbox : Rect) : List String → RunState → RunState
  | [], st => st
  | mword :: ms, st =>
    if mword == spanText && decide (0 < mword.length) then
      if (n, bbox) ∈ st.alreadyLinked then
        fallbackTokLoop source medium campaign n url u spanText bbox ms st
      else
        insertSpanLink n bbox
          (appendUtm (url ++ mword) source medium campaign mword) u st
    else fallbackTokLoop source medium campaign n url u spanText bbox ms st

/-- Span loop of the fallback pass: run the token loop on every span. -/
def fallbackSpanLoop (source medium campaign : String) (n : Nat) (url : String)
    (u : Bool) (mwords : List String) : List (String × Rect) → RunState → RunState
  | [], st => st
  | (t, b) :: rest, st =>
    fallbackSpanLoop source medium campaign n url u mwords rest
      (fallbackTokLoop source medium campaign n url u t b mwords st)

/-- Pattern loop of the line-level pass: `search` each pattern against the
joined line text; on a match run the span-equality loop, and when it finds
no span, the whitespace-token fallback; then continue with the next pattern. -/
def linePatLoop (source medium campaign : String) (n : Nat) (u : Bool)
    (spanData : List (String × Rect)) (lineText : String) :
    List (List RTok × String) → RunState → RunState
  | [], st => st
  | (pat, url) :: ps, st =>
    match searchAnchored pat lineText.data with
    | none => linePatLoop source medium campaign n u spanData lineText ps st
    | some matchChars =>
      let matchStr := String.mk matchChars
      let res := spanEqLoop source medium campaign n url matchStr u spanData st
      let st2 :=
        if res.2 then res.1
        else fallbackSpanLoop source medium campaign n url u
          (pySplitWs matchStr) spanData res.1
      linePatLoop source medium campaign n u spanData lineText ps st2

/-- Python `sep.join(pieces)`. -/
def joinWith (sep : String) : List String → String
  | [] => ""
  | [x] => x
  | x :: xs => x ++ sep ++ joinWith sep xs

/-- One line of the line-level pass: normalize the spans, join their texts
with spaces, and run the pattern loop. -/
def lineStep (source medium campaign : String) (n : Nat) (u : Bool)
    (patterns : List (List RTok × String)) (line : Line) (st : RunState) : RunState :=
  let spanData := line.spans.map (fun sp => (normalize sp.text, sp.bbox))
  let lineText := joinWith " " (spanData.map (fun sd => sd.1))
  linePatLoop source medium campaign n u spanData lineText patterns st

/-- The loop over a block's lines. -/
def lineLoop (source medium campaign : String) (n : Nat) (u : Bool)
    (patterns : List (List RTok × String)) : List Line → RunState → RunState
  | [], st => st
  | l :: ls, st =>
    lineLoop source medium campaign n u patterns ls
      (lineStep source medium campaign n u patterns l st)

/-- The loop over the page's blocks. -/
def blockLoop (source medium campaign : String) (n : Nat) (u : Bool)
    (patterns : List (List RTok × String)) : List Block → RunState → RunState
  | [], st => st
  | b :: bs, st =>
    blockLoop source medium campaign n u patterns bs
      (lineLoop source medium campaign n u patterns b.lines st)

/-! ## Per-page dispatch and the whole run -/

/-- One iteration of the page loop of `process_pdf_logic`: dispatch on
`job_type`.  For `links_and_utm` the format map is validated (raising
`ValueError` on a falsy or unparsable map — note this check happens inside
the page loop), patterns are compiled, `already_linked` is re-initialised,
and the word-level then line-level passes run.  Any other `job_type` leaves
the state untouched. -/
def processPage (source medium campaign jobType : String) (fmtInput : FormatMapInput)
    (u : Bool) (n : Nat) (page : Page) (st : RunState) : Except PdfError RunState :=
  if jobType == "utm_only" then
    Except.ok (utmOnlyPass source medium campaign n page page.links st)
  else if jobType == "links_and_utm" then
    match fmtInput with
    | FormatMapInput.missing =>
      Except.error (PdfError.valueError "Format map is required.")
    | FormatMapInput.malformed =>
      Except.error (PdfError.valueError "Format map must be a valid JSON object.")
    | FormatMapInput.parsed fd =>
      let patterns := compilePatterns fd
      let st0 := { st with alreadyLinked := [] }
      let st1 := wordPass source medium campaign n patterns page.words st0
      Except.ok (blockLoop source medium campaign n u patterns page.blocks st1)
  else Except.ok st

/-- The page loop, indexed from `n` (`for page_num in range(len(final_pdf))`
with pages processed in order). -/
def processPages (source medium campaign jobType : String) (fmtInput : FormatMapInput)
    (u : Bool) : Nat → List Page → RunState → Except PdfError RunState
  | _, [], st => Except.ok st
  | n, p :: ps, st =>
    match processPage source medium campaign jobType fmtInput u n p st with
    | Except.error e => Except.error e
    | Except.ok st1 => processPages source medium campaign jobType fmtInput u (n + 1) ps st1

/-- `process_pdf_logic` from `src/main.py` over the page list of the opened
document (the `diagnostics` flag only logs and is omitted). -/
def process_pdf_logic (pages : List Page) (source medium campaign jobType : String)
    (fmtInput : FormatMapInput) (u : Bool) : Except PdfError RunState :=
  processPages source medium campaign jobType fmtInput u 0 pages initState

/-! ## The /process endpoint (PDF path) -/

/-- A response of the `/process` endpoint's PDF path: either the processed
document stream (the mutations applied to the final document) with the
`X-Link-Count` header, or a JSON error with an HTTP status.  An error
response carries no document, so a failed request returns no partial
output. -/
inductive HttpResp where
  | pdfStream : RunState → Nat → HttpResp
  | jsonError : Nat → String → HttpResp
deriving DecidableEq, Repr

/-- The `try/except` of `process_file`: a `ValueError` becomes a 400 JSON
error, any other exception a 500 JSON error, success streams the document
with `X-Link-Count`. -/
def respondPdf (r : Except PdfError RunState) : HttpResp :=
  match r with
  | Except.ok st => HttpResp.pdfStream st st.linkCount
  | Except.error (PdfError.valueError m) => HttpResp.jsonError 400 m
  | Except.error (PdfError.internal m) => HttpResp.jsonError 500 m

/-- Python dict insertion: a repeated key keeps its first position but takes
the latest value. -/
def dictInsert (d : List (String × String)) (k v : String) : List (String × String) :=
  if d.any (fun p => p.1 == k) then
    d.map (fun p => if p.1 == k then (k, v) else p)
  else d ++ [(k, v)]

/-- The dict comprehension `{tf: bu for tf, bu in zip(target_format,
base_url)}` (its `json.dumps`/`json.loads` round trip is the identity on
this data). -/
def buildFormatDict (tfs bus : List String) : List (String × String) :=
  (tfs.zip bus).foldl (fun d kv => dictInsert d kv.1 kv.2) []

/-- The PDF branch of the `/process` endpoint: for `links_and_utm`, require
both `target_format` and `base_url` (non-empty) and equal lengths — these
`ValueError`s become 400s; otherwise hand the (always valid) format map to
`process_pdf_logic` and map its outcome through `respondPdf`. -/
def process_file_pdf (pages : List Page) (jobType : String)
    (targetFormat baseUrl : Option (List String))
    (source medium campaign underlineStr : String) : HttpResp :=
  let ub := underlineStr.toLower == "true"
  if jobType == "links_and_utm" then
    match targetFormat, baseUrl with
    | some tfs, some bus =>
      if tfs.isEmpty || bus.isEmpty then
        HttpResp.jsonError 400 "target_format and base_url are required for links_and_utm jobs."
      else if tfs.length ≠ bus.length then
        HttpResp.jsonError 400 "Mismatch between number of target_format and base_url entries."
      else
        respondPdf (process_pdf_logic pages source medium campaign jobType
          (FormatMapInput.parsed (buildFormatDict tfs bus)) ub)
    | _, _ =>
      HttpResp.jsonError 400 "target_format and base_url are required for links_and_utm jobs."
  else
    respondPdf (process_pdf_logic pages source medium campaign jobType
      FormatMapInput.missing ub)

/-! ## Derived notions used by the theorems -/

/-- The `(page, rect)` keys of the links inserted into the final document. -/
def insKeys (st : RunState) : List (Nat × Rect) :=
  st.finalInserted.map (fun ml => (ml.1, ml.2.rect))

/-- Every rectangle the page itself carries: word boxes, span boxes, and
existing link boxes — the "original geometry" of the page. -/
def geoRects (page : Page) : List Rect :=
  page.words.map wordRect ++
    (page.blocks.map (fun b =>
      (b.lines.map (fun l => l.spans.map (fun sp => sp.bbox))).flatten)).flatten ++
    page.links.map (fun l => l.rect)

/-- Python `c in "Ll"`. -/
def isLChar (c : Char) : Bool :=
  c == 'L' || c == 'l'

/-- The ways the `links_and_utm` passes extend the run state while on page
`n`: a chain of insertions whose rectangles come from `g` (the page's own
geometry), each being either the word-pass insertion (never drawing) or the
span-pass insertion (drawing the underline exactly when `u`), and each
guarded by the `(n, rect)` key not yet being in `already_linked`. -/
inductive Ext (n : Nat) (g : List Rect) (u : Bool) : RunState → RunState → Prop where
  | refl : ∀ st : RunState, Ext n g u st st
  | word : ∀ st st' : RunState, ∀ r : Rect, ∀ url : String,
      Ext n g u st st' → r ∈ g → (n, r) ∉ st'.alreadyLinked →
      Ext n g u st (insertLinkBoth n r url st')
  | span : ∀ st st' : RunState, ∀ r : Rect, ∀ url : String,
      Ext n g u st st' → r ∈ g → (n, r) ∉ st'.alreadyLinked →
      Ext n g u st (insertSpanLink n r url u st')

/-- The global de-duplication invariant after the pages before page `n`
have been processed: the final document's inserted `(page, rect)` keys are
pairwise distinct and all on earlier pages, the link counter equals the
number of insertions, and `red_rects` lists exactly the inserted keys. -/
def GInv (n : Nat) (st : RunState) : Prop :=
  (insKeys st).Nodup ∧ (∀ k ∈ insKeys st, k.1 < n) ∧
    st.linkCount = (insKeys st).length ∧ st.redRects = insKeys st

/-! ## Concrete pages used as inputs of example runs -/

/-- A page holding one existing link with target
`https://shop.example.com/p/1234` whose visible text is `Buy Now`
(spec scenario for `utm_only`). -/
def pageBuyNow : Page :=
  { links := [⟨some "https://shop.example.com/p/1234", ⟨1, 2, 30, 10⟩⟩]
    words := []
    blocks := []
    textbox := fun _ => "Buy Now" }

/-- A page holding two existing link annotations on the same rectangle. -/
def pageDupLink : Page :=
  { links := [⟨some "https://a.com/x", ⟨0, 0, 1, 1⟩⟩,
              ⟨some "https://a.com/x", ⟨0, 0, 1, 1⟩⟩]
    words := []
    blocks := []
    textbox := fun _ => "t" }

/-- A page whose only text is the word `123` (matched by format `NNN`),
with no span structure. -/
def pageWordMatch : Page :=
  { links := []
    words := [⟨0, 0, 5, 5, "123"⟩]
    blocks := []
    textbox := fun _ => "" }

/-- A page holding one existing link whose visible text `Buy\nNow` contains
a newline (whitespace) but no space character. -/
def pageNlText : Page :=
  { links := [⟨some "https://e.com/p/9", ⟨0, 0, 9, 9⟩⟩]
    words := []
    blocks := []
    textbox := fun _ => "Buy\nNow" }

/-- A page whose span structure holds the single span `INV-2024`
(spec scenario for `links_and_utm`). -/
def pageSpanMatch : Page :=
  { links := []
    words := []
    blocks := [⟨[⟨[⟨"INV-2024", ⟨0, 10, 40, 20⟩⟩]⟩]⟩]
    textbox := fun _ => "" }

/-- A page holding one existing link whose visible text is `Learn More`. -/
def pageLearnMore : Page :=
  { links := [⟨some "https://e.com/docs/guide", ⟨2, 2, 20, 8⟩⟩]
    words := []
    blocks := []
    textbox := fun _ => "Learn More" }

/-- A page holding one existing link whose visible text is `download`. -/
def pageDownload : Page :=
  { links := [⟨some "https://e.com/docs/guide", ⟨2, 2, 20, 8⟩⟩]
    words := []
    blocks := []
    textbox := fun _ => "download" }

/-- The state produced by the `links_and_utm` run over `pageWordMatch` with
format map `{"NNN": "https://t.co/"}` and UTM triple `(s, m, c)`. -/
def stWordMatch : RunState :=
  { finalInserted := [(0, ⟨⟨0, 0, 5, 5⟩,
      "https://t.co/123?utm_source=s&utm_medium=m&utm_campaign=c&utm_content=123", 2, 0⟩)]
    finalDeleted := []
    finalDrawings := []
    previewInserted := [(0, ⟨⟨0, 0, 5, 5⟩,
      "https://t.co/123?utm_source=s&utm_medium=m&utm_campaign=c&utm_content=123", 2, 0⟩)]
    previewDrawings := []
    redRects := [(0, ⟨0, 0, 5, 5⟩)]
    alreadyLinked := [(0, ⟨0, 0, 5, 5⟩)]
    linkCount := 1 }

/-- The state produced by the `links_and_utm` run over `pageSpanMatch` with
format map `{"LLL-NNNN": "https://track.example.com/"}`, UTM triple
`(news, email, spring)` and underlining requested: the span `INV-2024` is
linked once and the underline decoration is drawn beneath its bounding box
on the final document. -/
def stSpanMatch : RunState :=
  { finalInserted := [(0, ⟨⟨0, 10, 40, 20⟩,
      "https://track.example.com/INV-2024?utm_source=news&utm_medium=email&utm_campaign=spring&utm_content=INV-2024", 2, 0⟩)]
    finalDeleted := []
    finalDrawings := [(0, underlineCmd ⟨0, 10, 40, 20⟩)]
    previewInserted := [(0, ⟨⟨0, 10, 40, 20⟩,
      "https://track.example.com/INV-2024?utm_source=news&utm_medium=email&utm_campaign=spring&utm_content=INV-2024", 2, 0⟩)]
    previewDrawings := []
    redRects := [(0, ⟨0, 10, 40, 20⟩)]
    alreadyLinked := [(0, ⟨0, 10, 40, 20⟩)]
    linkCount := 1 }

/-! ## Supporting lemmas: lists -/

theorem length_dropWhile_le' (p : α → Bool) (l : List α) :
    (l.dropWhile p).length ≤ l.length := by
  induction l with
  | nil => simp
  | cons a l ih =>
    rw [List.dropWhile_cons]
    split
    · exact Nat.le_trans ih (Nat.le_succ _)
    · exact Nat.le_refl _

theorem takeWhile_append_of_all (p : α → Bool) (l l2 : List α)
    (h : ∀ x ∈ l, p x = true) : (l ++ l2).takeWhile p = l ++ l2.takeWhile p := by
  induction l with
  | nil => simp
  | cons a l ih =>
    rw [List.cons_append, List.takeWhile_cons, if_pos (h a (List.mem_cons_self a l))]
    rw [ih (fun x hx => h x (List.mem_cons_of_mem a hx)), List.cons_append]

theorem dropWhile_append_of_all (p : α → Bool) (l l2 : List α)
    (h : ∀ x ∈ l, p x = true) : (l ++ l2).dropWhile p = l2.dropWhile p := by
  induction l with
  | nil => simp
  | cons a l ih =>
    rw [List.cons_append, List.dropWhile_cons, if_pos (h a (List.mem_cons_self a l))]
    exact ih (fun x hx => h x (List.mem_cons_of_mem a hx))

theorem mem_of_mem_dropWhile' (p : α → Bool) (l : List α) {x : α}
    (h : x ∈ l.dropWhile p) : x ∈ l := by
  induction l with
  | nil => simp at h
  | cons a l ih =>
    rw [List.dropWhile_cons] at h
    split at h
    · exact List.mem_cons_of_mem a (ih h)
    · exact h

theorem all_take_of_le_takeWhile (p : α → Bool) (l : List α) (n : Nat)
    (h : n ≤ (l.takeWhile p).length) : ∀ x ∈ l.take n, p x = true := by
  induction l generalizing n with
  | nil => intro x hx; simp at hx
  | cons a l ih =>
    intro x hx
    cases n with
    | zero => simp at hx
    | succ m =>
      rw [List.takeWhile_cons] at h
      split at h
      · rw [List.take_succ_cons] at hx
        rcases List.mem_cons.mp hx with h1 | h1
        · subst h1; assumption
        · exact ih m (Nat.succ_le_succ_iff.mp (by simpa using h)) x h1
      · simp at h

theorem length_le_takeWhile_of_all (p : α → Bool) (d r : List α)
    (h : ∀ x ∈ d, p x = true) : d.length ≤ ((d ++ r).takeWhile p).length := by
  rw [takeWhile_append_of_all p d r h, List.length_append]
  exact Nat.le_add_right _ _

/-! ## Supporting lemmas: characters -/

theorem toNat_ofNat_valid (n : Nat) (h : n.isValidChar) : (Char.ofNat n).toNat = n := by
  rw [Char.ofNat, dif_pos h]
  simp [Char.ofNatAux, Char.toNat, UInt32.toNat]

theorem eq_of_asciiLower_eq_n (x : Char) (h : asciiLower x = 'n') :
    x = 'N' ∨ x = 'n' := by
  unfold asciiLower at h
  split at h
  · rename_i hg
    have hb : 65 ≤ x.toNat ∧ x.toNat ≤ 90 := by simpa using hg
    have hv : (x.toNat + 32).isValidChar := Or.inl (by omega)
    have ht : x.toNat + 32 = 110 := by
      have := congrArg Char.toNat h
      rwa [toNat_ofNat_valid _ hv] at this
    have hx : x.toNat = 78 := by omega
    left
    calc x = Char.ofNat x.toNat := (Char.ofNat_toNat x).symm
    _ = Char.ofNat 78 := by rw [hx]
    _ = 'N' := by decide
  · exact Or.inr h

theorem eq_of_asciiLower_eq_l (x : Char) (h : asciiLower x = 'l') :
    x = 'L' ∨ x = 'l' := by
  unfold asciiLower at h
  split at h
  · rename_i hg
    have hb : 65 ≤ x.toNat ∧ x.toNat ≤ 90 := by simpa using hg
    have hv : (x.toNat + 32).isValidChar := Or.inl (by omega)
    have ht : x.toNat + 32 = 108 := by
      have := congrArg Char.toNat h
      rwa [toNat_ofNat_valid _ hv] at this
    have hx : x.toNat = 76 := by omega
    left
    calc x = Char.ofNat x.toNat := (Char.ofNat_toNat x).symm
    _ = Char.ofNat 76 := by rw [hx]
    _ = 'L' := by decide
  · exact Or.inr h

theorem isNLChar_cases (c : Char) (h : isNLChar c = true) :
    c = 'N' ∨ c = 'n' ∨ c = 'L' ∨ c = 'l' := by
  simp [isNLChar] at h
  tauto

theorem charTok_eq_of_lower (c x : Char) (hc : isNLChar c = true)
    (hx : asciiLower x = asciiLower c) : charTok x = charTok c := by
  rcases isNLChar_cases c hc with rfl | rfl | rfl | rfl
  · rcases eq_of_asciiLower_eq_n x (by simpa using hx) with rfl | rfl <;> decide
  · rcases eq_of_asciiLower_eq_n x (by simpa using hx) with rfl | rfl <;> decide
  · rcases eq_of_asciiLower_eq_l x (by simpa using hx) with rfl | rfl <;> decide
  · rcases eq_of_asciiLower_eq_l x (by simpa using hx) with rfl | rfl <;> decide

/-! ## Supporting lemmas: the pattern compiler -/

theorem fptrAux_fuel : ∀ f1 : Nat, ∀ f2 : Nat, ∀ s : List Char,
    s.length < f1 → s.length < f2 → fptrAux f1 s = fptrAux f2 s := by
  intro f1
  induction f1 with
  | zero => intro f2 s h1 _; omega
  | succ a ih =>
    intro f2 s h1 h2
    cases f2 with
    | zero => omega
    | succ b =>
      cases s with
      | nil => rfl
      | cons c rest =>
        have hr : rest.length < a := by simp at h1; omega
        have hr2 : rest.length < b := by simp at h2; omega
        have hd : (rest.dropWhile (fun x => asciiLower x == asciiLower c)).length ≤
            rest.length := length_dropWhile_le' _ _
        have htl : (rest.dropWhile (fun x => asciiLower x == asciiLower c)).tail.length ≤
            rest.length := by
          have := List.length_tail (rest.dropWhile (fun x => asciiLower x == asciiLower c))
          omega
        show fptrAux (a + 1) (c :: rest) = fptrAux (b + 1) (c :: rest)
        rw [fptrAux, fptrAux]
        by_cases hc : isNLChar c = true
        · rw [if_pos hc, if_pos hc]
          by_cases hh : ((rest.dropWhile (fun x => asciiLower x == asciiLower c)).head? ==
              some '+') = true
          · rw [if_pos hh, if_pos hh, ih b _ (by omega) (by omega)]
          · rw [if_neg hh, if_neg hh, ih b _ (by omega) (by omega)]
        · rw [if_neg hc, if_neg hc, ih b rest hr hr2]

theorem fptr_nil : format_pattern_to_regex [] = [] := rfl

theorem fptr_cons_lit (c : Char) (rest : List Char) (h : isNLChar c = false) :
    format_pattern_to_regex (c :: rest) = RTok.lit c :: format_pattern_to_regex rest := by
  rw [format_pattern_to_regex, format_pattern_to_regex]
  show fptrAux (rest.length + 1 + 1) (c :: rest) = _
  rw [fptrAux]
  rw [if_neg (by simp [h])]

theorem fptr_cons_run (c : Char) (rest : List Char) (h : isNLChar c = true) :
    format_pattern_to_regex (c :: rest) =
      (if (rest.dropWhile (fun x => asciiLower x == asciiLower c)).head? == some '+' then
        (if isNChar c then
            RTok.digitAtLeast ((rest.takeWhile (fun x => asciiLower x == asciiLower c)).length + 1)
          else
            RTok.letterAtLeast ((rest.takeWhile (fun x => asciiLower x == asciiLower c)).length + 1))
          :: format_pattern_to_regex (rest.dropWhile (fun x => asciiLower x == asciiLower c)).tail
      else
        List.replicate ((rest.takeWhile (fun x => asciiLower x == asciiLower c)).length + 1)
            (if isNChar c then RTok.digit else RTok.letter)
          ++ format_pattern_to_regex (rest.dropWhile (fun x => asciiLower x == asciiLower c))) := by
  have hd : (rest.dropWhile (fun x => asciiLower x == asciiLower c)).length ≤ rest.length :=
    length_dropWhile_le' _ _
  have htl := List.length_tail (rest.dropWhile (fun x => asciiLower x == asciiLower c))
  have e1 : fptrAux (rest.length + 1)
      (rest.dropWhile (fun x => asciiLower x == asciiLower c)).tail =
      format_pattern_to_regex (rest.dropWhile (fun x => asciiLower x == asciiLower c)).tail := by
    rw [format_pattern_to_regex]
    exact fptrAux_fuel _ _ _ (by omega) (by omega)
  have e2 : fptrAux (rest.length + 1)
      (rest.dropWhile (fun x => asciiLower x == asciiLower c)) =
      format_pattern_to_regex (rest.dropWhile (fun x => asciiLower x == asciiLower c)) := by
    rw [format_pattern_to_regex]
    exact fptrAux_fuel _ _ _ (by omega) (by omega)
  rw [format_pattern_to_regex]
  show fptrAux (rest.length + 1 + 1) (c :: rest) = _
  rw [fptrAux, if_pos h]
  by_cases hh : ((rest.dropWhile (fun x => asciiLower x == asciiLower c)).head? ==
      some '+') = true
  · rw [if_pos hh, if_pos hh, e1]
  · rw [if_neg hh, if_neg hh, e2]

theorem fptr_no_plus : ∀ fmt : List Char, '+' ∉ fmt →
    format_pattern_to_regex fmt = fmt.map charTok := by
  suffices H : ∀ n : Nat, ∀ fmt : List Char, fmt.length ≤ n → '+' ∉ fmt →
      format_pattern_to_regex fmt = fmt.map charTok by
    intro fmt h; exact H fmt.length fmt (Nat.le_refl _) h
  intro n
  induction n with
  | zero =>
    intro fmt hl _
    have : fmt = [] := List.length_eq_zero.mp (Nat.le_zero.mp hl)
    subst this; rfl
  | succ m ih =>
    intro fmt hl hp
    cases fmt with
    | nil => rfl
    | cons c rest =>
      by_cases hc : isNLChar c = true
      · rw [fptr_cons_run c rest hc]
        have hpr : '+' ∉ rest := fun hmem => hp (List.mem_cons_of_mem c hmem)
        have hpa : '+' ∉ rest.dropWhile (fun x => asciiLower x == asciiLower c) :=
          fun hmem => hpr (mem_of_mem_dropWhile' _ _ hmem)
        have hhead : ((rest.dropWhile (fun x => asciiLower x == asciiLower c)).head? ==
            some '+') = false := by
          cases he : (rest.dropWhile (fun x => asciiLower x == asciiLower c)).head? with
          | none => rfl
          | some a =>
            by_cases hval : a = '+'
            · exfalso
              apply hpa
              apply List.mem_of_mem_head?
              rw [he, hval]
              rfl
            · simp [hval]
        rw [if_neg (by rw [hhead]; exact Bool.false_ne_true)]
        have hsplit := List.takeWhile_append_dropWhile
          (p := fun x => asciiLower x == asciiLower c) (l := rest)
        have hmap : rest.map charTok =
            (rest.takeWhile (fun x => asciiLower x == asciiLower c)).map charTok ++
            (rest.dropWhile (fun x => asciiLower x == asciiLower c)).map charTok := by
          conv_lhs => rw [← hsplit]
          rw [List.map_append]
        have htake : (rest.takeWhile (fun x => asciiLower x == asciiLower c)).map charTok =
            List.replicate ((rest.takeWhile (fun x => asciiLower x == asciiLower c)).length)
              (charTok c) := by
          rw [List.eq_replicate_iff]
          refine ⟨by rw [List.length_map], ?_⟩
          intro b hb
          rcases List.mem_map.mp hb with ⟨x, hx, rfl⟩
          have hpx := List.mem_takeWhile_imp hx
          exact charTok_eq_of_lower c x hc (by simpa using hpx)
        have hctok : charTok c = (if isNChar c then RTok.digit else RTok.letter) := by
          rcases isNLChar_cases c hc with rfl | rfl | rfl | rfl <;> rfl
        have hdl : (rest.dropWhile (fun x => asciiLower x == asciiLower c)).length ≤
            rest.length := length_dropWhile_le' _ _
        have hrec := ih (rest.dropWhile (fun x => asciiLower x == asciiLower c))
          (by simp at hl; omega) hpa
        rw [hrec, List.map_cons, hmap, htake, hctok]
        rw [List.replicate_succ, List.cons_append]
      · have hc2 : isNLChar c = false := by simpa using hc
        rw [fptr_cons_lit c rest hc2, List.map_cons]
        have hpr : '+' ∉ rest := fun hmem => hp (List.mem_cons_of_mem c hmem)
        rw [ih rest (by simp at hl; omega) hpr]
        have : charTok c = RTok.lit c := by
          unfold charTok
          rw [if_neg, if_neg]
          · intro hL
            rcases (by simpa using hL : c = 'L' ∨ c = 'l') with h1 | h1 <;>
              simp [isNLChar, h1] at hc2
          · intro hN
            unfold isNChar at hN
            rcases (by simpa using hN : c = 'N' ∨ c = 'n') with h1 | h1 <;>
              simp [isNLChar, h1] at hc2
        rw [this]

theorem charTok_digit (f : Char) (h : isNChar f = true) : charTok f = RTok.digit := by
  unfold charTok
  rw [if_pos h]

theorem charTok_letter (f : Char) (h1 : isNChar f = false)
    (h2 : (f == 'L' || f == 'l') = true) : charTok f = RTok.letter := by
  unfold charTok
  rw [if_neg (by simp [h1]), if_pos (by simpa using h2)]

theorem charTok_lit (f : Char) (h1 : isNChar f = false)
    (h2 : (f == 'L' || f == 'l') = false) : charTok f = RTok.lit f := by
  unfold charTok
  rw [if_neg (by simp [h1]), if_neg (by simp at h2; simpa using h2)]

theorem charShapeMatches_digit (f c : Char) (h : isNChar f = true) :
    charShapeMatches f c = c.isDigit := by
  unfold charShapeMatches
  rw [if_pos h]

theorem charShapeMatches_letter (f c : Char) (h1 : isNChar f = false)
    (h2 : (f == 'L' || f == 'l') = true) : charShapeMatches f c = isAsciiLetter c := by
  unfold charShapeMatches
  rw [if_neg (by simp [h1]), if_pos (by simpa using h2)]

theorem charShapeMatches_lit (f c : Char) (h1 : isNChar f = false)
    (h2 : (f == 'L' || f == 'l') = false) :
    charShapeMatches f c = (asciiLower c == asciiLower f) := by
  unfold charShapeMatches
  rw [if_neg (by simp [h1]), if_neg (by simp at h2; simpa using h2)]

theorem tokensMatch_map_charTok : ∀ fmt s : List Char,
    tokensMatch (fmt.map charTok) s = true ↔
      List.Forall₂ (fun f c => charShapeMatches f c = true) fmt s := by
  intro fmt
  induction fmt with
  | nil =>
    intro s
    cases s with
    | nil => simp [tokensMatch]
    | cons c s => simp [tokensMatch]
  | cons f fmt ih =>
    intro s
    have hone : ∀ c s2, tokensMatch (charTok f :: fmt.map charTok) (c :: s2) =
        (charShapeMatches f c && tokensMatch (fmt.map charTok) s2) := by
      intro c s2
      by_cases h1 : isNChar f = true
      · rw [charTok_digit f h1, charShapeMatches_digit f c h1]
        rfl
      · have h1f : isNChar f = false := by simpa using h1
        by_cases h2 : (f == 'L' || f == 'l') = true
        · rw [charTok_letter f h1f h2, charShapeMatches_letter f c h1f h2]
          rfl
        · have h2f : (f == 'L' || f == 'l') = false := by simpa using h2
          rw [charTok_lit f h1f h2f, charShapeMatches_lit f c h1f h2f]
          rfl
    have hnil : tokensMatch (charTok f :: fmt.map charTok) [] = false := by
      by_cases h1 : isNChar f = true
      · rw [charTok_digit f h1]; rfl
      · have h1f : isNChar f = false := by simpa using h1
        by_cases h2 : (f == 'L' || f == 'l') = true
        · rw [charTok_letter f h1f h2]; rfl
        · have h2f : (f == 'L' || f == 'l') = false := by simpa using h2
          rw [charTok_lit f h1f h2f]; rfl
    cases s with
    | nil =>
      rw [List.map_cons]
      constructor
      · intro h
        rw [hnil] at h
        exact absurd h (by simp)
      · intro h
        cases h
    | cons c s2 =>
      rw [List.map_cons, hone c s2]
      constructor
      · intro h
        rcases Bool.and_eq_true_iff.mp h with ⟨ha, hb⟩
        exact List.Forall₂.cons ha ((ih s2).mp hb)
      · intro h
        cases h with
        | cons h1 h2 => exact Bool.and_eq_true_iff.mpr ⟨h1, (ih s2).mpr h2⟩

theorem length_takeWhile_le' (p : α → Bool) (l : List α) :
    (l.takeWhile p).length ≤ l.length := by
  have h := congrArg List.length (List.takeWhile_append_dropWhile (p := p) (l := l))
  rw [List.length_append] at h
  omega

theorem anyRange_atLeast_iff (p : Char → Bool) (k : Nat) (q : List Char → Bool)
    (s : List Char) :
    ((List.range ((s.takeWhile p).length + 1)).any
        (fun n => decide (k ≤ n) && q (s.drop n)) = true) ↔
      ∃ d r, s = d ++ r ∧ (∀ ch ∈ d, p ch = true) ∧ k ≤ d.length ∧ q r = true := by
  rw [List.any_eq_true]
  constructor
  · rintro ⟨n, hn, hq⟩
    rw [List.mem_range] at hn
    rcases Bool.and_eq_true_iff.mp hq with ⟨hk, hq2⟩
    have hkn : k ≤ n := of_decide_eq_true hk
    have hnm : n ≤ (s.takeWhile p).length := by omega
    have hns : n ≤ s.length := Nat.le_trans hnm (length_takeWhile_le' p s)
    refine ⟨s.take n, s.drop n, (List.take_append_drop n s).symm,
      all_take_of_le_takeWhile p s n hnm, ?_, hq2⟩
    rw [List.length_take]
    omega
  · rintro ⟨d, r, rfl, hall, hk, hq⟩
    refine ⟨d.length, ?_, ?_⟩
    · rw [List.mem_range]
      have := length_le_takeWhile_of_all p d r hall
      omega
    · rw [Bool.and_eq_true_iff]
      refine ⟨decide_eq_true hk, ?_⟩
      rw [List.drop_left]
      exact hq

theorem tokensMatch_digitAtLeast (k : Nat) (ts : List RTok) (s : List Char) :
    tokensMatch (RTok.digitAtLeast k :: ts) s = true ↔
      ∃ d r, s = d ++ r ∧ (∀ ch ∈ d, ch.isDigit = true) ∧ k ≤ d.length ∧
        tokensMatch ts r = true := by
  have e : tokensMatch (RTok.digitAtLeast k :: ts) s =
      (List.range ((s.takeWhile Char.isDigit).length + 1)).any
        (fun n => decide (k ≤ n) && tokensMatch ts (s.drop n)) := rfl
  rw [e]
  exact anyRange_atLeast_iff Char.isDigit k (fun r => tokensMatch ts r) s

theorem tokensMatch_letterAtLeast (k : Nat) (ts : List RTok) (s : List Char) :
    tokensMatch (RTok.letterAtLeast k :: ts) s = true ↔
      ∃ d r, s = d ++ r ∧ (∀ ch ∈ d, isAsciiLetter ch = true) ∧ k ≤ d.length ∧
        tokensMatch ts r = true := by
  have e : tokensMatch (RTok.letterAtLeast k :: ts) s =
      (List.range ((s.takeWhile isAsciiLetter).length + 1)).any
        (fun n => decide (k ≤ n) && tokensMatch ts (s.drop n)) := rfl
  rw [e]
  exact anyRange_atLeast_iff isAsciiLetter k (fun r => tokensMatch ts r) s

theorem lower_of_isNChar (x : Char) (h : isNChar x = true) : asciiLower x = 'n' := by
  rcases (by simpa [isNChar] using h : x = 'N' ∨ x = 'n') with rfl | rfl <;> decide

theorem lower_of_isLChar (x : Char) (h : isLChar x = true) : asciiLower x = 'l' := by
  rcases (by simpa [isLChar] using h : x = 'L' ∨ x = 'l') with rfl | rfl <;> decide

theorem fptr_digit_run (run rest : List Char) (hne : run ≠ [])
    (hall : ∀ x ∈ run, isNChar x = true) :
    format_pattern_to_regex (run ++ '+' :: rest) =
      RTok.digitAtLeast run.length :: format_pattern_to_regex rest := by
  cases run with
  | nil => exact absurd rfl hne
  | cons c rtail =>
    have hcN : isNChar c = true := hall c (List.mem_cons_self c rtail)
    have hcNL : isNLChar c = true := by
      rcases (by simpa [isNChar] using hcN : c = 'N' ∨ c = 'n') with rfl | rfl <;> decide
    have hlc : asciiLower c = 'n' := lower_of_isNChar c hcN
    have hallp : ∀ x ∈ rtail, (asciiLower x == asciiLower c) = true := by
      intro x hx
      rw [hlc, lower_of_isNChar x (hall x (List.mem_cons_of_mem c hx))]
      decide
    have hplus : ¬((asciiLower '+' == asciiLower c) = true) := by
      rw [hlc]
      decide
    rw [List.cons_append, fptr_cons_run c (rtail ++ '+' :: rest) hcNL]
    rw [takeWhile_append_of_all _ rtail _ hallp, dropWhile_append_of_all _ rtail _ hallp]
    rw [List.takeWhile_cons, if_neg hplus, List.dropWhile_cons, if_neg hplus]
    have hhd : ((('+' : Char) :: rest).head? == some '+') = true := rfl
    rw [if_pos hhd, if_pos hcN]
    simp

theorem fptr_letter_run (run rest : List Char) (hne : run ≠ [])
    (hall : ∀ x ∈ run, isLChar x = true) :
    format_pattern_to_regex (run ++ '+' :: rest) =
      RTok.letterAtLeast run.length :: format_pattern_to_regex rest := by
  cases run with
  | nil => exact absurd rfl hne
  | cons c rtail =>
    have hcL : isLChar c = true := hall c (List.mem_cons_self c rtail)
    have hcNL : isNLChar c = true := by
      rcases (by simpa [isLChar] using hcL : c = 'L' ∨ c = 'l') with rfl | rfl <;> decide
    have hcN : isNChar c = false := by
      rcases (by simpa [isLChar] using hcL : c = 'L' ∨ c = 'l') with rfl | rfl <;> decide
    have hlc : asciiLower c = 'l' := lower_of_isLChar c hcL
    have hallp : ∀ x ∈ rtail, (asciiLower x == asciiLower c) = true := by
      intro x hx
      rw [hlc, lower_of_isLChar x (hall x (List.mem_cons_of_mem c hx))]
      decide
    have hplus : ¬((asciiLower '+' == asciiLower c) = true) := by
      rw [hlc]
      decide
    rw [List.cons_append, fptr_cons_run c (rtail ++ '+' :: rest) hcNL]
    rw [takeWhile_append_of_all _ rtail _ hallp, dropWhile_append_of_all _ rtail _ hallp]
    rw [List.takeWhile_cons, if_neg hplus, List.dropWhile_cons, if_neg hplus]
    have hhd : ((('+' : Char) :: rest).head? == some '+') = true := rfl
    rw [if_pos hhd, if_neg (by simp [hcN])]
    simp

/-! ## Claim C1 -/

/-- C1 (amended): for every format string with no `+`, the compiled anchored
case-insensitive pattern fully matches a string iff the string has the same
length as the format and, at each position, has a digit where the format has
`N`, an ASCII letter where it has `L`, and the literal character **up to
ASCII case** elsewhere (the pattern is compiled with `re.IGNORECASE`, so a
literal letter also matches its other case — this is the sole amendment to
the claim's "exact literal character"). -/
theorem c1_no_plus_shape (fmt s : List Char) (hplus : '+' ∉ fmt) :
    fullmatchAnchored (format_pattern_to_regex fmt) s = true ↔
      (s.length = fmt.length ∧
        ∀ i : Nat, ∀ h1 : i < fmt.length, ∀ h2 : i < s.length,
          charShapeMatches (fmt.get ⟨i, h1⟩) (s.get ⟨i, h2⟩) = true) := by
  rw [fullmatchAnchored, fptr_no_plus fmt hplus, tokensMatch_map_charTok,
    List.forall₂_iff_get]
  constructor
  · rintro ⟨h1, h2⟩
    exact ⟨h1.symm, fun i hf hs => h2 i hf hs⟩
  · rintro ⟨h1, h2⟩
    exact ⟨h1.symm, fun i hf hs => h2 i hf hs⟩

/-- C1 counterexample: the claim as stated requires the *exact* literal
character at literal positions, but the pattern for format `x` matches the
string `X` although `X ≠ x` (IGNORECASE applies to escaped literals too). -/
theorem c1_counterexample :
    fullmatchAnchored (format_pattern_to_regex ('x' :: [])) ('X' :: []) = true ∧
      ('X' : Char) ≠ 'x' := by
  decide

/-- C1 witness: the amended theorem applied to format `NNN-LLL` and string
`123-ABC`. -/
theorem c1_witness :
    fullmatchAnchored (format_pattern_to_regex "NNN-LLL".data) "123-ABC".data = true :=
  (c1_no_plus_shape "NNN-LLL".data "123-ABC".data (by decide)).mpr (by decide)

/-! ## Claim C2 -/

/-- C2 (amended): a non-empty run of `N` (resp. `L`) characters immediately
followed by `+` compiles to the single token `\d{k,}` (resp. `[A-Za-z]{k,}`)
with `k` the run length, followed by the compilation of the remainder; those
tokens match exactly the splits whose first part is at least `k` digits
(resp. ASCII letters); adjacent literal tokens still match their character
**up to ASCII case** (amendment: IGNORECASE applies to literals, so "match
exactly" holds only up to case); and in particular the pattern for `N+`
matches `5` and `12345` and rejects the empty string. -/
theorem c2_plus_runs :
    (∀ run rest : List Char, run ≠ [] → (∀ x ∈ run, isNChar x = true) →
      format_pattern_to_regex (run ++ '+' :: rest) =
        RTok.digitAtLeast run.length :: format_pattern_to_regex rest)
    ∧ (∀ run rest : List Char, run ≠ [] → (∀ x ∈ run, isLChar x = true) →
      format_pattern_to_regex (run ++ '+' :: rest) =
        RTok.letterAtLeast run.length :: format_pattern_to_regex rest)
    ∧ (∀ k : Nat, ∀ ts : List RTok, ∀ s : List Char,
      tokensMatch (RTok.digitAtLeast k :: ts) s = true ↔
        ∃ d r, s = d ++ r ∧ (∀ ch ∈ d, ch.isDigit = true) ∧ k ≤ d.length ∧
          tokensMatch ts r = true)
    ∧ (∀ k : Nat, ∀ ts : List RTok, ∀ s : List Char,
      tokensMatch (RTok.letterAtLeast k :: ts) s = true ↔
        ∃ d r, s = d ++ r ∧ (∀ ch ∈ d, isAsciiLetter ch = true) ∧ k ≤ d.length ∧
          tokensMatch ts r = true)
    ∧ (∀ a x : Char, ∀ ts : List RTok, ∀ s : List Char,
      tokensMatch (RTok.lit a :: ts) (x :: s) = true ↔
        ((asciiLower x == asciiLower a) = true ∧ tokensMatch ts s = true))
    ∧ fullmatchAnchored (format_pattern_to_regex ('N' :: '+' :: [])) ('5' :: []) = true
    ∧ fullmatchAnchored (format_pattern_to_regex ('N' :: '+' :: [])) "12345".data = true
    ∧ fullmatchAnchored (format_pattern_to_regex ('N' :: '+' :: [])) [] = false := by
  refine ⟨fptr_digit_run, fptr_letter_run, tokensMatch_digitAtLeast,
    tokensMatch_letterAtLeast, ?_, by decide, by decide, by decide⟩
  intro a x ts s
  show ((asciiLower x == asciiLower a) && tokensMatch ts s) = true ↔ _
  rw [Bool.and_eq_true_iff]

/-- C2 counterexample: the claim's "adjacent literal characters must still
match exactly" fails — the pattern for format `xN+` matches `X5` although
`X ≠ x`. -/
theorem c2_counterexample :
    fullmatchAnchored (format_pattern_to_regex ('x' :: 'N' :: '+' :: []))
        ('X' :: '5' :: []) = true ∧
      ('X' : Char) ≠ 'x' := by
  decide

/-- C2 witness: the run-compilation part of the theorem applied to the
concrete run `NN` followed by `+`. -/
theorem c2_witness :
    format_pattern_to_regex ('N' :: 'N' :: '+' :: []) = RTok.digitAtLeast 2 :: [] := by
  have h := c2_plus_runs.1 ('N' :: 'N' :: []) [] (by decide) (by decide)
  simpa using h

/-! ## Claim C4 -/

/-- C4: the URL synthesis percent-encodes each UTM parameter value and
appends `utm_source`, `utm_medium`, `utm_campaign` and `utm_content`, joined
to the URL built so far with `?` when it contains no `?` yet and with `&`
when it does; concretely `https://x.com/a` gains `?utm_source=…` and
`https://x.com/a?id=9` gains `&utm_source=…`, with values such as
`spring sale` percent-encoded to `spring%20sale`. -/
theorem c4_utm_synthesis :
    (∀ url source medium campaign content : String, containsChar url '?' = false →
      appendUtm url source medium campaign content =
        url ++ "?" ++ utmBase source medium campaign ++ "&utm_content=" ++ quote content)
    ∧ (∀ url source medium campaign content : String, containsChar url '?' = true →
      appendUtm url source medium campaign content =
        url ++ "&" ++ utmBase source medium campaign ++ "&utm_content=" ++ quote content)
    ∧ appendUtm "https://x.com/a" "news" "email" "spring sale" "x y" =
      "https://x.com/a?utm_source=news&utm_medium=email&utm_campaign=spring%20sale&utm_content=x%20y"
    ∧ appendUtm "https://x.com/a?id=9" "news" "email" "spring" "x" =
      "https://x.com/a?id=9&utm_source=news&utm_medium=email&utm_campaign=spring&utm_content=x"
    ∧ quote "café" = "caf%C3%A9" := by
  refine ⟨?_, ?_, by decide, by decide, by decide⟩
  · intro url source medium campaign content h
    rw [appendUtm, if_neg (by simp [h])]
  · intro url source medium campaign content h
    rw [appendUtm, if_pos h]

/-- C4 witness: the no-query-string case of the theorem applied to a
concrete URL. -/
theorem c4_witness :
    appendUtm "https://x.com/a" "s" "m" "c" "t" =
      "https://x.com/a" ++ "?" ++ utmBase "s" "m" "c" ++ "&utm_content=" ++ quote "t" :=
  c4_utm_synthesis.1 "https://x.com/a" "s" "m" "c" "t" (by decide)

/-! ## Claim C5 -/

/-- C5 (amended): in `utm_only`, for every existing link annotation carrying
a URI, the annotation is replaced in place at the same rectangle by a link
to the original target with the UTM parameters appended (`&` iff the
original contains `?`), where `utm_content` is the last path segment of the
target when the visible text under the rectangle contains a **space
character** (U+0020 — amendment: the code tests `" " in text`, not
arbitrary whitespace) and the visible text verbatim otherwise.  Concretely,
visible text `Learn More` yields the last path segment `guide` and visible
text `download` is used verbatim. -/
theorem c5_utm_only_content :
    (∀ source medium campaign : String, ∀ n : Nat, ∀ page : Page, ∀ st : RunState,
      ∀ link : LinkIn, ∀ u : String, link.uri = some u →
      utmOnlyStep source medium campaign n page st link =
        { st with
          finalDeleted := st.finalDeleted ++ [(n, link)]
          finalInserted := st.finalInserted ++ [(n, ⟨link.rect,
            appendUtm u source medium campaign
              (if containsChar (pyStrip (page.textbox link.rect)) ' ' then
                extract_last_path_segment u
              else pyStrip (page.textbox link.rect)), 2, n⟩)]
          previewInserted := st.previewInserted ++ [(n, ⟨link.rect,
            appendUtm u source medium campaign
              (if containsChar (pyStrip (page.textbox link.rect)) ' ' then
                extract_last_path_segment u
              else pyStrip (page.textbox link.rect)), 2, n⟩)]
          redRects := st.redRects ++ [(n, link.rect)]
          linkCount := st.linkCount + 1 })
    ∧ extract_last_path_segment "https://shop.example.com/p/1234" = "1234"
    ∧ extract_last_path_segment "https://e.com" = "link"
    ∧ extract_last_path_segment "https://e.com/a/b?q=1" = "b"
    ∧ (process_pdf_logic [pageLearnMore] "s" "m" "c" "utm_only"
          FormatMapInput.missing false).map
          (fun st => st.finalInserted.map (fun ml => ml.2.uri)) =
        Except.ok
          ["https://e.com/docs/guide?utm_source=s&utm_medium=m&utm_campaign=c&utm_content=guide"]
    ∧ (process_pdf_logic [pageDownload] "s" "m" "c" "utm_only"
          FormatMapInput.missing false).map
          (fun st => st.finalInserted.map (fun ml => ml.2.uri)) =
        Except.ok
          ["https://e.com/docs/guide?utm_source=s&utm_medium=m&utm_campaign=c&utm_content=download"] := by
  refine ⟨?_, by decide, by decide, by decide, rfl, rfl⟩
  intro source medium campaign n page st link u h
  cases link with
  | mk uri rect =>
    cases h
    rfl

/-- C5 counterexample: the claim says a visible text containing
*whitespace* uses the last path segment, but the visible text `Buy\nNow`
(which contains whitespace, a newline, but no space character) is used
verbatim as `utm_content` (`Buy%0ANow`), not the last path segment `9`. -/
theorem c5_counterexample :
    (process_pdf_logic [pageNlText] "s" "m" "c" "utm_only"
        FormatMapInput.missing false).map
        (fun st => st.finalInserted.map (fun ml => ml.2.uri)) =
      Except.ok ["https://e.com/p/9?utm_source=s&utm_medium=m&utm_campaign=c&utm_content=Buy%0ANow"]
    ∧ (pyStrip (pageNlText.textbox ⟨0, 0, 9, 9⟩)).data.any pyIsSpace = true
    ∧ "https://e.com/p/9?utm_source=s&utm_medium=m&utm_campaign=c&utm_content=Buy%0ANow" ≠
        appendUtm "https://e.com/p/9" "s" "m" "c"
          (extract_last_path_segment "https://e.com/p/9") :=
  ⟨rfl, by decide, by decide⟩

/-- C5 witness: the per-link equation applied to the `Learn More` page. -/
theorem c5_witness :
    (utmOnlyStep "s" "m" "c" 0 pageLearnMore initState
      ⟨some "https://e.com/docs/guide", ⟨2, 2, 20, 8⟩⟩).linkCount = 1 := by
  rw [c5_utm_only_content.1 "s" "m" "c" 0 pageLearnMore initState
    ⟨some "https://e.com/docs/guide", ⟨2, 2, 20, 8⟩⟩ "https://e.com/docs/guide" rfl]
  rfl

/-! ## Claim C6 -/

/-- C6 (amended): the existing link with target
`https://shop.example.com/p/1234` and visible text `Buy Now` under the UTM
triple `(ig, social, launch)` is rewritten by appending
`?utm_source=ig&utm_medium=social&utm_campaign=launch&utm_content=1234` —
the joiner is `?`, not the claim's `&`, because the original URL contains
no query string; `utm_content` is the last path segment `1234` as claimed,
since the visible text contains a space. -/
theorem c6_buy_now_rewrite :
    (process_pdf_logic [pageBuyNow] "ig" "social" "launch" "utm_only"
        FormatMapInput.missing false).map
        (fun st => (st.finalInserted.map (fun ml => ml.2.uri), st.linkCount)) =
      Except.ok
        (["https://shop.example.com/p/1234?utm_source=ig&utm_medium=social&utm_campaign=launch&utm_content=1234"], 1)
    ∧ "https://shop.example.com/p/1234?utm_source=ig&utm_medium=social&utm_campaign=launch&utm_content=1234" =
      "https://shop.example.com/p/1234" ++
        "?utm_source=ig&utm_medium=social&utm_campaign=launch&utm_content=1234" :=
  ⟨rfl, rfl⟩

/-- C6 counterexample: the produced URL is not the original with
`&utm_source=ig&…` appended, as the claim stated — the joiner is `?`. -/
theorem c6_counterexample :
    (process_pdf_logic [pageBuyNow] "ig" "social" "launch" "utm_only"
        FormatMapInput.missing false).map
        (fun st => st.finalInserted.map (fun ml => ml.2.uri)) =
      Except.ok
        ["https://shop.example.com/p/1234?utm_source=ig&utm_medium=social&utm_campaign=launch&utm_content=1234"]
    ∧ "https://shop.example.com/p/1234?utm_source=ig&utm_medium=social&utm_campaign=launch&utm_content=1234" ≠
      "https://shop.example.com/p/1234" ++
        "&utm_source=ig&utm_medium=social&utm_campaign=launch&utm_content=1234" :=
  ⟨rfl, by decide⟩

/-! ## Claim C8 -/

/-- C8 (amended): for `links_and_utm`, a missing/empty format map or a
format map that is not valid JSON raises `ValueError` with a human-readable
message **provided the document has at least one page** (the check runs
inside the per-page loop — amendment: a zero-page document succeeds with
zero links regardless of the format map); `process_file` reports a
`ValueError` as HTTP 400 and any other exception as HTTP 500, and an error
response carries no document (the request fails atomically); missing
`target_format`/`base_url` form fields are likewise a 400. -/
theorem c8_error_reporting :
    (∀ source medium campaign : String, ∀ u : Bool, ∀ p : Page, ∀ ps : List Page,
      process_pdf_logic (p :: ps) source medium campaign "links_and_utm"
          FormatMapInput.missing u =
        Except.error (PdfError.valueError "Format map is required."))
    ∧ (∀ source medium campaign : String, ∀ u : Bool, ∀ p : Page, ∀ ps : List Page,
      process_pdf_logic (p :: ps) source medium campaign "links_and_utm"
          FormatMapInput.malformed u =
        Except.error (PdfError.valueError "Format map must be a valid JSON object."))
    ∧ (∀ m : String,
      respondPdf (Except.error (PdfError.valueError m)) = HttpResp.jsonError 400 m)
    ∧ (∀ m : String,
      respondPdf (Except.error (PdfError.internal m)) = HttpResp.jsonError 500 m)
    ∧ (∀ pages : List Page, ∀ bu : Option (List String),
        ∀ source medium campaign us : String,
      process_file_pdf pages "links_and_utm" none bu source medium campaign us =
        HttpResp.jsonError 400
          "target_format and base_url are required for links_and_utm jobs.") :=
  ⟨fun _ _ _ _ _ _ => rfl, fun _ _ _ _ _ _ => rfl, fun _ => rfl, fun _ => rfl,
    fun _ _ _ _ _ _ => rfl⟩

/-- C8 counterexample: on a zero-page document the missing format map does
not raise — `process_pdf_logic` succeeds and the endpooint returns a 200
stream with zero links instead of the claimed 400. -/
theorem c8_counterexample :
    respondPdf (process_pdf_logic [] "s" "m" "c" "links_and_utm"
        FormatMapInput.missing false) = HttpResp.pdfStream initState 0 :=
  rfl

/-! ## Claim C10 -/

/-- C10: any `job_type` other than `utm_only` and `links_and_utm` raises no
error and performs no matching: `process_pdf_logic` returns both documents
unmodified with an empty rectangle list and a link count of 0, and the
`/process` endpoint streams the unmodified document with `X-Link-Count`
0 instead of rejecting the unknown job type. -/
theorem c10_unknown_job_type :
    ∀ pages : List Page, ∀ source medium campaign jobType : String,
      ∀ fmtInput : FormatMapInput, ∀ u : Bool, ∀ tf bu : Option (List String),
      ∀ us : String,
      jobType ≠ "utm_only" → jobType ≠ "links_and_utm" →
      process_pdf_logic pages source medium campaign jobType fmtInput u =
          Except.ok initState
        ∧ process_file_pdf pages jobType tf bu source medium campaign us =
          HttpResp.pdfStream initState 0 := by
  intro pages source medium campaign jobType fmtInput u tf bu us h1 h2
  have hpages : ∀ fi : FormatMapInput, ∀ ub : Bool, ∀ ps : List Page, ∀ n : Nat,
      ∀ st : RunState,
      processPages source medium campaign jobType fi ub n ps st = Except.ok st := by
    intro fi ub ps
    induction ps with
    | nil => intro n st; rfl
    | cons p ps ih =>
      intro n st
      rw [processPages]
      have hp : processPage source medium campaign jobType fi ub n p st =
          Except.ok st := by
        rw [processPage.eq_def, if_neg (by simp [h1]), if_neg (by simp [h2])]
      rw [hp]
      exact ih (n + 1) st
  have hlogic : ∀ fi : FormatMapInput, ∀ ub : Bool,
      process_pdf_logic pages source medium campaign jobType fi ub =
        Except.ok initState := by
    intro fi ub
    rw [process_pdf_logic]
    exact hpages fi ub pages 0 initState
  refine ⟨hlogic fmtInput u, ?_⟩
  rw [process_file_pdf.eq_def, if_neg (by simp [h2]),
    hlogic FormatMapInput.missing (us.toLower == "true")]
  rfl

/-- C10 witness: the theorem applied to the job type `bogus` over a
one-page document. -/
theorem c10_witness :
    process_pdf_logic [pageWordMatch] "s" "m" "c" "bogus" FormatMapInput.missing false =
        Except.ok initState
      ∧ process_file_pdf [pageWordMatch] "bogus" none none "s" "m" "c" "false" =
        HttpResp.pdfStream initState 0 :=
  c10_unknown_job_type [pageWordMatch] "s" "m" "c" "bogus" FormatMapInput.missing false
    none none "false" (by decide) (by decide)

/-! ## Supporting lemmas: the links_and_utm state machine -/

theorem insertSpanLink_eq (n : Nat) (b : Rect) (url : String) (u : Bool) (st : RunState) :
    insertSpanLink n b url u st =
      { st with
        finalInserted := st.finalInserted ++ [(n, ⟨b, url, 2, n⟩)]
        previewInserted := st.previewInserted ++ [(n, ⟨b, url, 2, n⟩)]
        redRects := st.redRects ++ [(n, b)]
        alreadyLinked := st.alreadyLinked ++ [(n, b)]
        linkCount := st.linkCount + 1
        finalDrawings := st.finalDrawings ++ (if u then [(n, underlineCmd b)] else []) } := by
  cases u
  · simp [insertSpanLink, insertLinkBoth]
  · simp [insertSpanLink, insertLinkBoth, drawUnderline]

theorem ext_trans {n : Nat} {g : List Rect} {u : Bool} {st1 st2 st3 : RunState}
    (h1 : Ext n g u st1 st2) (h2 : Ext n g u st2 st3) : Ext n g u st1 st3 := by
  induction h2 with
  | refl => exact h1
  | word stp r url hext hg hnew ih => exact Ext.word _ _ r url ih hg hnew
  | span stp r url hext hg hnew ih => exact Ext.span _ _ r url ih hg hnew

theorem ext_insKeys_sub {n : Nat} {g : List Rect} {u : Bool} {st st' : RunState}
    (h : Ext n g u st st') :
    ∀ ml ∈ st'.finalInserted, ml ∈ st.finalInserted ∨ (ml.1 = n ∧ ml.2.rect ∈ g) := by
  induction h with
  | refl => intro ml hml; exact Or.inl hml
  | word stp r url hext hg hnew ih =>
    intro ml hml
    have hml2 : ml ∈ stp.finalInserted ∨ ml = (n, ⟨r, url, 2, n⟩) := by
      simpa [insertLinkBoth] using hml
    rcases hml2 with h1 | rfl
    · exact ih ml h1
    · exact Or.inr ⟨rfl, hg⟩
  | span stp r url hext hg hnew ih =>
    intro ml hml
    rw [insertSpanLink_eq] at hml
    have hml2 : ml ∈ stp.finalInserted ∨ ml = (n, ⟨r, url, 2, n⟩) := by
      simpa using hml
    rcases hml2 with h1 | rfl
    · exact ih ml h1
    · exact Or.inr ⟨rfl, hg⟩

theorem ext_dedup {n : Nat} {g : List Rect} {u : Bool} {st st' : RunState}
    (h : Ext n g u st st') :
    ((insKeys st).Nodup ∧ (∀ k ∈ insKeys st, k.1 < n ∨ k ∈ st.alreadyLinked) ∧
      st.linkCount = (insKeys st).length ∧ st.redRects = insKeys st) →
    ((insKeys st').Nodup ∧ (∀ k ∈ insKeys st', k.1 < n ∨ k ∈ st'.alreadyLinked) ∧
      st'.linkCount = (insKeys st').length ∧ st'.redRects = insKeys st') := by
  induction h with
  | refl => exact fun hinv => hinv
  | word stp r url hext hg hnew ih =>
    intro hinv
    rcases ih hinv with ⟨hnd, hloc, hcnt, hred⟩
    have hkeys : insKeys (insertLinkBoth n r url stp) = insKeys stp ++ [(n, r)] := by
      simp [insKeys, insertLinkBoth]
    have hnotin : (n, r) ∉ insKeys stp := by
      intro hmem
      rcases hloc (n, r) hmem with hlt | hal
      · omega
      · exact hnew hal
    refine ⟨?_, ?_, ?_, ?_⟩
    · rw [hkeys]
      rw [List.nodup_append]
      refine ⟨hnd, List.nodup_singleton _, ?_⟩
      intro a ha hb
      rcases List.mem_singleton.mp hb with rfl
      exact hnotin ha
    · rw [hkeys]
      intro k hk
      rcases List.mem_append.mp hk with h1 | h1
      · rcases hloc k h1 with hlt | hal
        · exact Or.inl hlt
        · refine Or.inr ?_
          show k ∈ stp.alreadyLinked ++ [(n, r)]
          exact List.mem_append_left _ hal
      · rcases List.mem_singleton.mp h1 with rfl
        refine Or.inr ?_
        show (n, r) ∈ stp.alreadyLinked ++ [(n, r)]
        exact List.mem_append_right _ (List.mem_singleton.mpr rfl)
    · rw [hkeys]
      show stp.linkCount + 1 = _
      rw [List.length_append, hcnt]
      rfl
    · rw [hkeys]
      show stp.redRects ++ [(n, r)] = _
      rw [hred]
  | span stp r url hext hg hnew ih =>
    intro hinv
    rcases ih hinv with ⟨hnd, hloc, hcnt, hred⟩
    have hkeys : insKeys (insertSpanLink n r url u stp) = insKeys stp ++ [(n, r)] := by
      rw [insertSpanLink_eq]
      simp [insKeys]
    have hnotin : (n, r) ∉ insKeys stp := by
      intro hmem
      rcases hloc (n, r) hmem with hlt | hal
      · omega
      · exact hnew hal
    refine ⟨?_, ?_, ?_, ?_⟩
    · rw [hkeys]
      rw [List.nodup_append]
      refine ⟨hnd, List.nodup_singleton _, ?_⟩
      intro a ha hb
      rcases List.mem_singleton.mp hb with rfl
      exact hnotin ha
    · rw [hkeys]
      intro k hk
      rcases List.mem_append.mp hk with h1 | h1
      · rcases hloc k h1 with hlt | hal
        · exact Or.inl hlt
        · refine Or.inr ?_
          rw [insertSpanLink_eq]
          show k ∈ stp.alreadyLinked ++ [(n, r)]
          exact List.mem_append_left _ hal
      · rcases List.mem_singleton.mp h1 with rfl
        refine Or.inr ?_
        rw [insertSpanLink_eq]
        show (n, r) ∈ stp.alreadyLinked ++ [(n, r)]
        exact List.mem_append_right _ (List.mem_singleton.mpr rfl)
    · rw [hkeys, insertSpanLink_eq]
      show stp.linkCount + 1 = _
      rw [List.length_append, hcnt]
      rfl
    · rw [hkeys, insertSpanLink_eq]
      show stp.redRects ++ [(n, r)] = _
      rw [hred]

theorem ext_drawings {n : Nat} {g : List Rect} {u : Bool} {st st' : RunState}
    (h : Ext n g u st st') :
    st'.previewDrawings = st.previewDrawings ∧
      (u = false → st'.finalDrawings = st.finalDrawings) ∧
      (∀ md ∈ st'.finalDrawings, md ∈ st.finalDrawings ∨ ∃ b, md.2 = underlineCmd b) := by
  induction h with
  | refl => exact ⟨rfl, fun _ => rfl, fun md hmd => Or.inl hmd⟩
  | word stp r url hext hg hnew ih =>
    rcases ih with ⟨hp, hf, hm⟩
    exact ⟨hp, hf, hm⟩
  | span stp r url hext hg hnew ih =>
    rcases ih with ⟨hp, hf, hm⟩
    refine ⟨?_, ?_, ?_⟩
    · rw [insertSpanLink_eq]
      exact hp
    · intro hu
      subst hu
      rw [insertSpanLink_eq]
      show stp.finalDrawings ++ (if false then _ else []) = _
      rw [if_neg (by simp)]
      rw [List.append_nil]
      exact hf rfl
    · intro md hmd
      rw [insertSpanLink_eq] at hmd
      have hmd2 : md ∈ stp.finalDrawings ∨
          md ∈ (if u then [(n, underlineCmd r)] else []) := by
        simpa using List.mem_append.mp hmd
      rcases hmd2 with h1 | h1
      · exact hm md h1
      · cases u with
        | false => simp at h1
        | true =>
          rcases List.mem_singleton.mp (by simpa using h1) with rfl
          exact Or.inr ⟨r, rfl⟩

theorem wordPatLoop_ext {n : Nat} {g : List Rect} {u : Bool}
    (source medium campaign : String) (rect : Rect) (cleanText : String)
    (hg : rect ∈ g) :
    ∀ ps : List (List RTok × String), ∀ st : RunState,
      Ext n g u st (wordPatLoop source medium campaign n rect cleanText ps st) := by
  intro ps
  induction ps with
  | nil => intro st; exact Ext.refl st
  | cons pu ps ih =>
    intro st
    obtain ⟨pat, url⟩ := pu
    rw [wordPatLoop]
    split
    · split
      · exact ih st
      · exact Ext.word st st rect _ (Ext.refl st) hg (by assumption)
    · exact ih st

theorem wordPass_ext {n : Nat} {g : List Rect} {u : Bool}
    (source medium campaign : String) (patterns : List (List RTok × String)) :
    ∀ ws : List Word, (∀ w ∈ ws, wordRect w ∈ g) → ∀ st : RunState,
      Ext n g u st (wordPass source medium campaign n patterns ws st) := by
  intro ws
  induction ws with
  | nil => intro _ st; exact Ext.refl st
  | cons w ws ih =>
    intro hw st
    rw [wordPass]
    exact ext_trans
      (wordPatLoop_ext source medium campaign (wordRect w) (normalize w.text)
        (hw w (List.mem_cons_self w ws)) patterns st)
      (ih (fun x hx => hw x (List.mem_cons_of_mem w hx)) _)

theorem spanEqLoop_ext {n : Nat} {g : List Rect} {u : Bool}
    (source medium campaign : String) (url matchStr : String) :
    ∀ sd : List (String × Rect), (∀ x ∈ sd, x.2 ∈ g) → ∀ st : RunState,
      Ext n g u st (spanEqLoop source medium campaign n url matchStr u sd st).1 := by
  intro sd
  induction sd with
  | nil => intro _ st; exact Ext.refl st
  | cons tb sd ih =>
    intro hsd st
    obtain ⟨spanText, bbox⟩ := tb
    rw [spanEqLoop]
    split
    · split
      · exact ih (fun x hx => hsd x (List.mem_cons_of_mem _ hx)) st
      · exact Ext.span st st bbox _ (Ext.refl st)
          (hsd (spanText, bbox) (List.mem_cons_self _ sd)) (by assumption)
    · exact ih (fun x hx => hsd x (List.mem_cons_of_mem _ hx)) st

theorem fallbackTokLoop_ext {n : Nat} {g : List Rect} {u : Bool}
    (source medium campaign : String) (url : String) (spanText : String) (bbox : Rect)
    (hb : bbox ∈ g) :
    ∀ ms : List String, ∀ st : RunState,
      Ext n g u st (fallbackTokLoop source medium campaign n url u spanText bbox ms st) := by
  intro ms
  induction ms with
  | nil => intro st; exact Ext.refl st
  | cons mw ms ih =>
    intro st
    rw [fallbackTokLoop]
    split
    · split
      · exact ih st
      · exact Ext.span st st bbox _ (Ext.refl st) hb (by assumption)
    · exact ih st

theorem fallbackSpanLoop_ext {n : Nat} {g : List Rect} {u : Bool}
    (source medium campaign : String) (url : String) (mwords : List String) :
    ∀ sd : List (String × Rect), (∀ x ∈ sd, x.2 ∈ g) → ∀ st : RunState,
      Ext n g u st (fallbackSpanLoop source medium campaign n url u mwords sd st) := by
  intro sd
  induction sd with
  | nil => intro _ st; exact Ext.refl st
  | cons tb sd ih =>
    intro hsd st
    obtain ⟨t, b⟩ := tb
    rw [fallbackSpanLoop]
    exact ext_trans
      (fallbackTokLoop_ext source medium campaign url t b
        (hsd (t, b) (List.mem_cons_self _ sd)) mwords st)
      (ih (fun x hx => hsd x (List.mem_cons_of_mem _ hx)) _)

theorem linePatLoop_ext {n : Nat} {g : List Rect} {u : Bool}
    (source medium campaign : String) (spanData : List (String × Rect))
    (lineText : String) (hsd : ∀ x ∈ spanData, x.2 ∈ g) :
    ∀ ps : List (List RTok × String), ∀ st : RunState,
      Ext n g u st (linePatLoop source medium campaign n u spanData lineText ps st) := by
  intro ps
  induction ps with
  | nil => intro st; exact Ext.refl st
  | cons pu ps ih =>
    intro st
    obtain ⟨pat, url⟩ := pu
    rw [linePatLoop]
    cases hsearch : searchAnchored pat lineText.data with
    | none => exact ih st
    | some matchChars =>
      have h1 : Ext n g u st
          (spanEqLoop source medium campaign n url (String.mk matchChars) u spanData st).1 :=
        spanEqLoop_ext source medium campaign url (String.mk matchChars) spanData hsd st
      have h2 : Ext n g u st
          (if (spanEqLoop source medium campaign n url (String.mk matchChars) u spanData st).2
            then (spanEqLoop source medium campaign n url (String.mk matchChars) u spanData st).1
            else fallbackSpanLoop source medium campaign n url u
              (pySplitWs (String.mk matchChars)) spanData
              (spanEqLoop source medium campaign n url (String.mk matchChars) u spanData st).1) := by
        split
        · exact h1
        · exact ext_trans h1
            (fallbackSpanLoop_ext source medium campaign url
              (pySplitWs (String.mk matchChars)) spanData hsd _)
      exact ext_trans h2 (ih _)

theorem lineLoop_ext {n : Nat} {g : List Rect} {u : Bool}
    (source medium campaign : String) (patterns : List (List RTok × String)) :
    ∀ ls : List Line, (∀ l ∈ ls, ∀ sp ∈ l.spans, sp.bbox ∈ g) → ∀ st : RunState,
      Ext n g u st (lineLoop source medium campaign n u patterns ls st) := by
  intro ls
  induction ls with
  | nil => intro _ st; exact Ext.refl st
  | cons l ls ih =>
    intro hls st
    rw [lineLoop]
    refine ext_trans ?_ (ih (fun x hx => hls x (List.mem_cons_of_mem l hx)) _)
    rw [lineStep]
    apply linePatLoop_ext
    intro x hx
    rcases List.mem_map.mp hx with ⟨sp, hsp, rfl⟩
    exact hls l (List.mem_cons_self l ls) sp hsp

theorem blockLoop_ext {n : Nat} {g : List Rect} {u : Bool}
    (source medium campaign : String) (patterns : List (List RTok × String)) :
    ∀ bs : List Block, (∀ b ∈ bs, ∀ l ∈ b.lines, ∀ sp ∈ l.spans, sp.bbox ∈ g) →
      ∀ st : RunState,
      Ext n g u st (blockLoop source medium campaign n u patterns bs st) := by
  intro bs
  induction bs with
  | nil => intro _ st; exact Ext.refl st
  | cons b bs ih =>
    intro hbs st
    rw [blockLoop]
    exact ext_trans
      (lineLoop_ext source medium campaign patterns b.lines
        (fun l hl => hbs b (List.mem_cons_self b bs) l hl) st)
      (ih (fun x hx => hbs x (List.mem_cons_of_mem b hx)) _)

theorem wordPatLoop_drawings (source medium campaign : String) (n : Nat) (rect : Rect)
    (cleanText : String) :
    ∀ ps : List (List RTok × String), ∀ st : RunState,
      (wordPatLoop source medium campaign n rect cleanText ps st).finalDrawings =
        st.finalDrawings := by
  intro ps
  induction ps with
  | nil => intro st; rfl
  | cons pu ps ih =>
    intro st
    obtain ⟨pat, url⟩ := pu
    rw [wordPatLoop]
    split
    · split
      · exact ih st
      · rfl
    · exact ih st

theorem wordPass_drawings (source medium campaign : String) (n : Nat)
    (patterns : List (List RTok × String)) :
    ∀ ws : List Word, ∀ st : RunState,
      (wordPass source medium campaign n patterns ws st).finalDrawings =
        st.finalDrawings := by
  intro ws
  induction ws with
  | nil => intro st; rfl
  | cons w ws ih =>
    intro st
    rw [wordPass, ih, wordPatLoop_drawings]

/-! ## Supporting lemmas: per-page dispatch -/

theorem processPage_utm_only (source medium campaign : String) (fmtInput : FormatMapInput)
    (u : Bool) (n : Nat) (page : Page) (st : RunState) :
    processPage source medium campaign "utm_only" fmtInput u n page st =
      Except.ok (utmOnlyPass source medium campaign n page page.links st) := rfl

theorem processPage_links (source medium campaign : String) (fd : List (String × String))
    (u : Bool) (n : Nat) (page : Page) (st : RunState) :
    processPage source medium campaign "links_and_utm" (FormatMapInput.parsed fd) u n page st =
      Except.ok (blockLoop source medium campaign n u (compilePatterns fd) page.blocks
        (wordPass source medium campaign n (compilePatterns fd) page.words
          { st with alreadyLinked := [] })) := rfl

theorem processPage_links_missing (source medium campaign : String) (u : Bool) (n : Nat)
    (page : Page) (st : RunState) :
    processPage source medium campaign "links_and_utm" FormatMapInput.missing u n page st =
      Except.error (PdfError.valueError "Format map is required.") := rfl

theorem processPage_links_malformed (source medium campaign : String) (u : Bool) (n : Nat)
    (page : Page) (st : RunState) :
    processPage source medium campaign "links_and_utm" FormatMapInput.malformed u n page st =
      Except.error (PdfError.valueError "Format map must be a valid JSON object.") := rfl

theorem processPage_other (source medium campaign jobType : String)
    (fmtInput : FormatMapInput) (u : Bool) (n : Nat) (page : Page) (st : RunState)
    (h1 : jobType ≠ "utm_only") (h2 : jobType ≠ "links_and_utm") :
    processPage source medium campaign jobType fmtInput u n page st = Except.ok st := by
  rw [processPage.eq_def, if_neg (by simp [h1]), if_neg (by simp [h2])]

theorem utmOnlyStep_eq (source medium campaign : String) (n : Nat) (page : Page)
    (st : RunState) (link : LinkIn) (u : String) (h : link.uri = some u) :
    utmOnlyStep source medium campaign n page st link =
      { st with
        finalDeleted := st.finalDeleted ++ [(n, link)]
        finalInserted := st.finalInserted ++ [(n, ⟨link.rect,
          appendUtm u source medium campaign
            (if containsChar (pyStrip (page.textbox link.rect)) ' ' then
              extract_last_path_segment u
            else pyStrip (page.textbox link.rect)), 2, n⟩)]
        previewInserted := st.previewInserted ++ [(n, ⟨link.rect,
          appendUtm u source medium campaign
            (if containsChar (pyStrip (page.textbox link.rect)) ' ' then
              extract_last_path_segment u
            else pyStrip (page.textbox link.rect)), 2, n⟩)]
        redRects := st.redRects ++ [(n, link.rect)]
        linkCount := st.linkCount + 1 } := by
  cases link with
  | mk uri rect =>
    cases h
    rfl

theorem utmOnlyStep_inserted_sub (source medium campaign : String) (n : Nat) (page : Page)
    (st : RunState) (link : LinkIn) :
    ∀ ml ∈ (utmOnlyStep source medium campaign n page st link).finalInserted,
      ml ∈ st.finalInserted ∨ (ml.1 = n ∧ ml.2.rect = link.rect) := by
  intro ml hml
  obtain ⟨uri, rect⟩ := link
  cases uri with
  | none => exact Or.inl hml
  | some u =>
    rw [utmOnlyStep_eq source medium campaign n page st ⟨some u, rect⟩ u rfl] at hml
    rcases List.mem_append.mp hml with h1 | h1
    · exact Or.inl h1
    · rcases List.mem_singleton.mp h1 with rfl
      exact Or.inr ⟨rfl, rfl⟩

theorem utmOnlyPass_inserted (source medium campaign : String) (n : Nat) (page : Page) :
    ∀ ls : List LinkIn, ∀ st : RunState,
      ∀ ml ∈ (utmOnlyPass source medium campaign n page ls st).finalInserted,
        ml ∈ st.finalInserted ∨ (ml.1 = n ∧ ml.2.rect ∈ ls.map (fun l => l.rect)) := by
  intro ls
  induction ls with
  | nil => intro st ml hml; exact Or.inl hml
  | cons l ls ih =>
    intro st ml hml
    rw [utmOnlyPass] at hml
    rcases ih (utmOnlyStep source medium campaign n page st l) ml hml with h1 | ⟨heq, hmem⟩
    · rcases utmOnlyStep_inserted_sub source medium campaign n page st l ml h1 with
        h2 | ⟨heq, hrect⟩
      · exact Or.inl h2
      · refine Or.inr ⟨heq, ?_⟩
        rw [hrect, List.map_cons]
        exact List.mem_cons_self _ _
    · refine Or.inr ⟨heq, ?_⟩
      rw [List.map_cons]
      exact List.mem_cons_of_mem _ hmem

theorem geoRects_word (page : Page) {w : Word} (hw : w ∈ page.words) :
    wordRect w ∈ geoRects page :=
  List.mem_append_left _ (List.mem_append_left _ (List.mem_map_of_mem wordRect hw))

theorem geoRects_span (page : Page) {b : Block} {l : Line} {sp : Span}
    (hb : b ∈ page.blocks) (hl : l ∈ b.lines) (hsp : sp ∈ l.spans) :
    sp.bbox ∈ geoRects page := by
  apply List.mem_append_left
  apply List.mem_append_right
  rw [List.mem_flatten]
  refine ⟨(b.lines.map (fun l => l.spans.map (fun sp => sp.bbox))).flatten,
    List.mem_map_of_mem _ hb, ?_⟩
  rw [List.mem_flatten]
  exact ⟨l.spans.map (fun sp => sp.bbox), List.mem_map_of_mem _ hl,
    List.mem_map_of_mem _ hsp⟩

theorem geoRects_link (page : Page) {r : Rect}
    (hr : r ∈ page.links.map (fun l => l.rect)) : r ∈ geoRects page :=
  List.mem_append_right _ hr

theorem processPage_links_ext (source medium campaign : String)
    (fd : List (String × String)) (u : Bool) (n : Nat) (page : Page) (st st' : RunState)
    (h : processPage source medium campaign "links_and_utm" (FormatMapInput.parsed fd) u
        n page st = Except.ok st') :
    Ext n (geoRects page) u { st with alreadyLinked := [] } st' := by
  rw [processPage_links] at h
  injection h with h
  subst h
  exact ext_trans
    (wordPass_ext source medium campaign (compilePatterns fd) page.words
      (fun w hw => geoRects_word page hw) _)
    (blockLoop_ext source medium campaign (compilePatterns fd) page.blocks
      (fun b hb l hl sp hsp => geoRects_span page hb hl hsp) _)

theorem processPage_dedup (source medium campaign : String) (fmtInput : FormatMapInput)
    (u : Bool) (n : Nat) (page : Page) (st st' : RunState)
    (h : processPage source medium campaign "links_and_utm" fmtInput u n page st =
      Except.ok st')
    (hG : GInv n st) : GInv (n + 1) st' := by
  cases fmtInput with
  | missing => rw [processPage_links_missing] at h; cases h
  | malformed => rw [processPage_links_malformed] at h; cases h
  | parsed fd =>
    have hext := processPage_links_ext source medium campaign fd u n page st st' h
    rcases hG with ⟨hnd, hlt, hcnt, hred⟩
    have hD := ext_dedup hext ⟨hnd, fun k hk => Or.inl (hlt k hk), hcnt, hred⟩
    rcases hD with ⟨hnd', _, hcnt', hred'⟩
    refine ⟨hnd', ?_, hcnt', hred'⟩
    intro k hk
    rcases List.mem_map.mp hk with ⟨ml, hml, rfl⟩
    rcases ext_insKeys_sub hext ml hml with h1 | ⟨heq, _⟩
    · have := hlt (ml.1, ml.2.rect) (List.mem_map_of_mem _ h1)
      omega
    · simp only [heq]
      omega

theorem processPages_dedup (source medium campaign : String) (fmtInput : FormatMapInput)
    (u : Bool) :
    ∀ ps : List Page, ∀ n : Nat, ∀ st st' : RunState,
      processPages source medium campaign "links_and_utm" fmtInput u n ps st =
        Except.ok st' →
      GInv n st → ∃ m, GInv m st' := by
  intro ps
  induction ps with
  | nil =>
    intro n st st' h hG
    injection h with h
    subst h
    exact ⟨n, hG⟩
  | cons p ps ih =>
    intro n st st' h hG
    rw [processPages] at h
    cases hp : processPage source medium campaign "links_and_utm" fmtInput u n p st with
    | error e => rw [hp] at h; simp at h
    | ok st1 =>
      rw [hp] at h
      exact ih (n + 1) st1 st' h
        (processPage_dedup source medium campaign fmtInput u n p st st1 hp hG)

theorem processPage_inserted (source medium campaign jobType : String)
    (fmtInput : FormatMapInput) (u : Bool) (n : Nat) (page : Page) (st st' : RunState)
    (h : processPage source medium campaign jobType fmtInput u n page st = Except.ok st') :
    ∀ ml ∈ st'.finalInserted,
      ml ∈ st.finalInserted ∨ (ml.1 = n ∧ ml.2.rect ∈ geoRects page) := by
  by_cases hj1 : jobType = "utm_only"
  · subst hj1
    rw [processPage_utm_only] at h
    injection h with h
    subst h
    intro ml hml
    rcases utmOnlyPass_inserted source medium campaign n page page.links st ml hml with
      h1 | ⟨heq, hmem⟩
    · exact Or.inl h1
    · exact Or.inr ⟨heq, geoRects_link page hmem⟩
  · by_cases hj2 : jobType = "links_and_utm"
    · subst hj2
      cases fmtInput with
      | missing => rw [processPage_links_missing] at h; cases h
      | malformed => rw [processPage_links_malformed] at h; cases h
      | parsed fd =>
        have hext := processPage_links_ext source medium campaign fd u n page st st' h
        intro ml hml
        exact ext_insKeys_sub hext ml hml
    · rw [processPage_other source medium campaign jobType fmtInput u n page st hj1 hj2] at h
      injection h with h
      subst h
      intro ml hml
      exact Or.inl hml

theorem processPages_inserted (source medium campaign jobType : String)
    (fmtInput : FormatMapInput) (u : Bool) :
    ∀ ps : List Page, ∀ n : Nat, ∀ st st' : RunState,
      processPages source medium campaign jobType fmtInput u n ps st = Except.ok st' →
      ∀ ml ∈ st'.finalInserted,
        ml ∈ st.finalInserted ∨
          (n ≤ ml.1 ∧ ∃ page, ps[ml.1 - n]? = some page ∧ ml.2.rect ∈ geoRects page) := by
  intro ps
  induction ps with
  | nil =>
    intro n st st' h ml hml
    injection h with h
    subst h
    exact Or.inl hml
  | cons p ps ih =>
    intro n st st' h ml hml
    rw [processPages] at h
    cases hp : processPage source medium campaign jobType fmtInput u n p st with
    | error e => rw [hp] at h; simp at h
    | ok st1 =>
      rw [hp] at h
      rcases ih (n + 1) st1 st' h ml hml with h1 | ⟨hge, page, hpage, hrect⟩
      · rcases processPage_inserted source medium campaign jobType fmtInput u n p st st1
          hp ml h1 with h2 | ⟨heq, hrect⟩
        · exact Or.inl h2
        · refine Or.inr ⟨by omega, p, ?_, hrect⟩
          have : ml.1 - n = 0 := by omega
          rw [this, List.getElem?_cons_zero]
      · refine Or.inr ⟨by omega, page, ?_, hrect⟩
        have hidx : ml.1 - n = (ml.1 - (n + 1)) + 1 := by omega
        rw [hidx, List.getElem?_cons_succ]
        exact hpage

theorem processPage_drawings (source medium campaign : String) (fmtInput : FormatMapInput)
    (u : Bool) (n : Nat) (page : Page) (st st' : RunState)
    (h : processPage source medium campaign "links_and_utm" fmtInput u n page st =
      Except.ok st') :
    st'.previewDrawings = st.previewDrawings ∧
      (u = false → st'.finalDrawings = st.finalDrawings) ∧
      (∀ md ∈ st'.finalDrawings, md ∈ st.finalDrawings ∨ ∃ b, md.2 = underlineCmd b) ∧
      (page.blocks = [] → st'.finalDrawings = st.finalDrawings) := by
  cases fmtInput with
  | missing => rw [processPage_links_missing] at h; cases h
  | malformed => rw [processPage_links_malformed] at h; cases h
  | parsed fd =>
    have hext := processPage_links_ext source medium campaign fd u n page st st' h
    rcases ext_drawings hext with ⟨hp, hf, hm⟩
    refine ⟨hp, hf, hm, ?_⟩
    intro hblocks
    rw [processPage_links] at h
    injection h with h
    subst h
    rw [hblocks, blockLoop, wordPass_drawings]

theorem processPages_drawings (source medium campaign : String)
    (fmtInput : FormatMapInput) (u : Bool) :
    ∀ ps : List Page, ∀ n : Nat, ∀ st st' : RunState,
      processPages source medium campaign "links_and_utm" fmtInput u n ps st =
        Except.ok st' →
      st'.previewDrawings = st.previewDrawings ∧
        (u = false → st'.finalDrawings = st.finalDrawings) ∧
        (∀ md ∈ st'.finalDrawings, md ∈ st.finalDrawings ∨ ∃ b, md.2 = underlineCmd b) ∧
        ((∀ p ∈ ps, p.blocks = []) → st'.finalDrawings = st.finalDrawings) := by
  intro ps
  induction ps with
  | nil =>
    intro n st st' h
    injection h with h
    subst h
    exact ⟨rfl, fun _ => rfl, fun md hmd => Or.inl hmd, fun _ => rfl⟩
  | cons p ps ih =>
    intro n st st' h
    rw [processPages] at h
    cases hp : processPage source medium campaign "links_and_utm" fmtInput u n p st with
    | error e => rw [hp] at h; simp at h
    | ok st1 =>
      rw [hp] at h
      rcases ih (n + 1) st1 st' h with ⟨hp1, hf1, hm1, hb1⟩
      rcases processPage_drawings source medium campaign fmtInput u n p st st1 hp with
        ⟨hp2, hf2, hm2, hb2⟩
      refine ⟨hp1.trans hp2, fun hu => (hf1 hu).trans (hf2 hu), ?_, ?_⟩
      · intro md hmd
        rcases hm1 md hmd with h1 | h1
        · exact hm2 md h1
        · exact Or.inr h1
      · intro hball
        rw [hb1 (fun q hq => hball q (List.mem_cons_of_mem p hq)),
          hb2 (hball p (List.mem_cons_self p ps))]

/-! ## Claim C3 -/

/-- C3 (amended): within a single `links_and_utm` run, no `(page, rect)`
pair ever receives two link annotations — the inserted `(page, rect)` keys
are pairwise distinct (first match wins, enforced through `already_linked`),
the link counter equals the number of distinct linked keys, and `red_rects`
lists exactly those keys.  Amendment: the claim's "any job type" does not
hold — the `utm_only` branch has no de-duplication and processes each
existing annotation independently, so a rectangle carrying two existing
annotations is linked twice there (see the counterexample). -/
theorem c3_dedup_links (pages : List Page) (source medium campaign : String)
    (fmtInput : FormatMapInput) (u : Bool) (st : RunState)
    (h : process_pdf_logic pages source medium campaign "links_and_utm" fmtInput u =
      Except.ok st) :
    (insKeys st).Nodup ∧ st.linkCount = (insKeys st).length ∧
      st.redRects = insKeys st := by
  have hG0 : GInv 0 initState :=
    ⟨List.nodup_nil, fun k hk => absurd hk (by simp [insKeys, initState]), rfl, rfl⟩
  rw [process_pdf_logic] at h
  rcases processPages_dedup source medium campaign fmtInput u pages 0 initState st h hG0
    with ⟨m, hG⟩
  exact ⟨hG.1, hG.2.2.1, hG.2.2.2⟩

/-- C3 counterexample: in job type `utm_only` a page carrying two existing
link annotations on the same rectangle gets that `(page, rect)` linked
twice and the counter incremented twice — the claimed invariant fails for
"any job type". -/
theorem c3_counterexample :
    (process_pdf_logic [pageDupLink] "s" "m" "c" "utm_only" FormatMapInput.missing
        false).map (fun st => (decide (insKeys st).Nodup, st.linkCount)) =
      Except.ok (false, 2) := rfl

/-- C3 witness: the amended theorem applied to a concrete one-word
`links_and_utm` run. -/
theorem c3_witness :
    (insKeys stWordMatch).Nodup ∧ stWordMatch.linkCount = (insKeys stWordMatch).length ∧
      stWordMatch.redRects = insKeys stWordMatch :=
  c3_dedup_links [pageWordMatch] "s" "m" "c"
    (FormatMapInput.parsed [("NNN", "https://t.co/")]) false stWordMatch rfl

/-! ## Claim C7 -/

/-- C7 (amended): in `links_and_utm`, underline decorations are drawn on
the final document **only by the span/line-level pass** and never by the
word-level pass (amendment: the claim's "from the word-level pass as well"
fails, see the counterexample).  Negatively: nothing is drawn when
underlining is not requested, the preview document never receives a
drawing, every final-document drawing is underline-shaped, and the
word-level pass leaves the final document's drawings unchanged on every
document and state.  Positively: both span-pass insertion sites (the
span-equality branch and the whitespace-token fallback branch) perform the
span insertion, and with underlining requested that insertion appends
exactly the underline decoration beneath the matched span's bounding box;
end to end, the one-span document `INV-2024` with underlining requested is
linked once and receives exactly that underline on the final document.
The decoration has fixed black colour, width 0.5, and sits at 90% of the
box height (near the text baseline). -/
theorem c7_underline_scope :
    (∀ pages : List Page, ∀ source medium campaign : String,
      ∀ fmtInput : FormatMapInput, ∀ st : RunState,
      process_pdf_logic pages source medium campaign "links_and_utm" fmtInput false =
        Except.ok st → st.finalDrawings = [])
    ∧ (∀ pages : List Page, ∀ source medium campaign : String,
      ∀ fmtInput : FormatMapInput, ∀ u : Bool, ∀ st : RunState,
      process_pdf_logic pages source medium campaign "links_and_utm" fmtInput u =
        Except.ok st → st.previewDrawings = [])
    ∧ (∀ pages : List Page, ∀ source medium campaign : String,
      ∀ fmtInput : FormatMapInput, ∀ u : Bool, ∀ st : RunState,
      process_pdf_logic pages source medium campaign "links_and_utm" fmtInput u =
        Except.ok st →
      ∀ md ∈ st.finalDrawings, ∃ b, md.2 = underlineCmd b)
    ∧ (∀ source medium campaign : String, ∀ n : Nat,
      ∀ patterns : List (List RTok × String), ∀ ws : List Word, ∀ st : RunState,
      (wordPass source medium campaign n patterns ws st).finalDrawings =
        st.finalDrawings)
    ∧ (∀ n : Nat, ∀ b : Rect, ∀ url : String, ∀ st : RunState,
      (insertSpanLink n b url true st).finalDrawings =
        st.finalDrawings ++ [(n, underlineCmd b)])
    ∧ (∀ source medium campaign : String, ∀ n : Nat, ∀ url matchStr spanText : String,
      ∀ bbox : Rect, ∀ rest : List (String × Rect), ∀ st : RunState,
      (matchStr == spanText && decide (0 < matchStr.length)) = true →
      (n, bbox) ∉ st.alreadyLinked →
      spanEqLoop source medium campaign n url matchStr true ((spanText, bbox) :: rest) st =
        (insertSpanLink n bbox
          (appendUtm (url ++ matchStr) source medium campaign matchStr) true st, true))
    ∧ (∀ source medium campaign : String, ∀ n : Nat, ∀ url : String, ∀ u : Bool,
      ∀ spanText : String, ∀ bbox : Rect, ∀ mword : String, ∀ ms : List String,
      ∀ st : RunState,
      (mword == spanText && decide (0 < mword.length)) = true →
      (n, bbox) ∉ st.alreadyLinked →
      fallbackTokLoop source medium campaign n url u spanText bbox (mword :: ms) st =
        insertSpanLink n bbox
          (appendUtm (url ++ mword) source medium campaign mword) u st)
    ∧ process_pdf_logic [pageSpanMatch] "news" "email" "spring" "links_and_utm"
        (FormatMapInput.parsed [("LLL-NNNN", "https://track.example.com/")]) true =
      Except.ok stSpanMatch
    ∧ (∀ pages : List Page, ∀ source medium campaign : String,
      ∀ fmtInput : FormatMapInput, ∀ u : Bool, ∀ st : RunState,
      (∀ p ∈ pages, p.blocks = []) →
      process_pdf_logic pages source medium campaign "links_and_utm" fmtInput u =
        Except.ok st → st.finalDrawings = [])
    ∧ (∀ b : Rect, (underlineCmd b).color = (0, 0, 0) ∧
        (underlineCmd b).width = 1 / 2 ∧
        (underlineCmd b).p1 = (b.x0, b.y0 + (b.y1 - b.y0) * (9 / 10)) ∧
        (underlineCmd b).p2 = (b.x1, b.y0 + (b.y1 - b.y0) * (9 / 10))) := by
  refine ⟨?_, ?_, ?_, ?_, ?_, ?_, ?_, rfl, ?_, ?_⟩
  · intro pages source medium campaign fmtInput st h
    rw [process_pdf_logic] at h
    exact (processPages_drawings source medium campaign fmtInput false pages 0
      initState st h).2.1 rfl
  · intro pages source medium campaign fmtInput u st h
    rw [process_pdf_logic] at h
    exact (processPages_drawings source medium campaign fmtInput u pages 0
      initState st h).1
  · intro pages source medium campaign fmtInput u st h md hmd
    rw [process_pdf_logic] at h
    rcases (processPages_drawings source medium campaign fmtInput u pages 0
      initState st h).2.2.1 md hmd with h1 | h1
    · exact absurd h1 (by simp [initState])
    · exact h1
  · intro source medium campaign n patterns ws st
    exact wordPass_drawings source medium campaign n patterns ws st
  · intro n b url st
    rw [insertSpanLink_eq]
    simp
  · intro source medium campaign n url matchStr spanText bbox rest st hcond hmem
    rw [spanEqLoop, if_pos hcond, if_neg hmem]
  · intro source medium campaign n url u spanText bbox mword ms st hcond hmem
    rw [fallbackTokLoop, if_pos hcond, if_neg hmem]
  · intro pages source medium campaign fmtInput u st hb h
    rw [process_pdf_logic] at h
    exact (processPages_drawings source medium campaign fmtInput u pages 0
      initState st h).2.2.2 hb
  · intro b
    have hc : int_to_rgb 0 = ((0 : ℚ), (0 : ℚ), (0 : ℚ)) := by
      have h1 : ((0 : Nat) >>> 16 &&& 255) = 0 := by decide
      have h2 : ((0 : Nat) >>> 8 &&& 255) = 0 := by decide
      have h3 : ((0 : Nat) &&& 255) = 0 := by decide
      rw [int_to_rgb, h1, h2, h3]
      norm_num
    exact ⟨hc, rfl, rfl, rfl⟩

/-- C7 counterexample: a successful word-level match with underlining
requested draws no underline — the run links one word and leaves the final
document's drawing list empty. -/
theorem c7_counterexample :
    (process_pdf_logic [pageWordMatch] "s" "m" "c" "links_and_utm"
        (FormatMapInput.parsed [("NNN", "https://t.co/")]) true).map
      (fun st => (st.linkCount, st.finalDrawings)) = Except.ok (1, []) := rfl

/-- C7 witness: the span-equality insertion part of the theorem applied to
the concrete matched span `INV-2024`, whose insertion (followed through the
drawing equation of `insertSpanLink`) appends the underline decoration. -/
theorem c7_witness :
    spanEqLoop "news" "email" "spring" 0 "https://track.example.com/" "INV-2024" true
        [("INV-2024", ⟨0, 10, 40, 20⟩)] initState =
      (insertSpanLink 0 ⟨0, 10, 40, 20⟩
        (appendUtm ("https://track.example.com/" ++ "INV-2024") "news" "email" "spring"
          "INV-2024") true initState, true) :=
  c7_underline_scope.2.2.2.2.2.1 "news" "email" "spring" 0 "https://track.example.com/"
    "INV-2024" "INV-2024" ⟨0, 10, 40, 20⟩ [] initState (by decide) (by decide)

/-! ## Claim C9 -/

/-- C9 (amended): before pattern matching, text is normalized by Unicode
**compatibility decomposition (NFKD, with no recombination — amendment: the
claim's "canonical decomposition + recombination" names NFC, which the code
does not use)**, the en dash and em dash are folded to `-`, the no-break
space becomes a plain space (via NFKD), surrounding whitespace is stripped;
the non-breaking hyphen does **not** become `-`: NFKD turns U+2011 into
U+2010 before the fold can fire (amendment).  The bounding box used for
every inserted link annotation is always original geometry of the page
(a word box, span box or existing-link box). -/
theorem c9_normalization :
    normalize "a\u2013b" = "a-b"
    ∧ normalize "a\u2014b" = "a-b"
    ∧ normalize "a\u00A0b" = "a b"
    ∧ normalize "a\u2011b" = "a\u2010b"
    ∧ normalize "  x  " = "x"
    ∧ normalize "\uFB01n" = "fin"
    ∧ (∀ pages : List Page, ∀ source medium campaign jobType : String,
      ∀ fmtInput : FormatMapInput, ∀ u : Bool, ∀ st : RunState,
      process_pdf_logic pages source medium campaign jobType fmtInput u = Except.ok st →
      ∀ ml ∈ st.finalInserted,
        ∃ page, pages[ml.1]? = some page ∧ ml.2.rect ∈ geoRects page) := by
  refine ⟨by decide, by decide, by decide, by decide, by decide, by decide, ?_⟩
  intro pages source medium campaign jobType fmtInput u st h ml hml
  rw [process_pdf_logic] at h
  rcases processPages_inserted source medium campaign jobType fmtInput u pages 0
    initState st h ml hml with h1 | ⟨_, page, hpage, hrect⟩
  · exact absurd h1 (by simp [initState])
  · rw [Nat.sub_zero] at hpage
    exact ⟨page, hpage, hrect⟩

/-- C9 counterexample: the code's `normalize` (NFKD) disagrees with the
claim's "canonical decomposition + recombination with non-breaking hyphen
folded to `-`" (modelled by `specNormalize`) on the non-breaking hyphen
U+2011 (which becomes U+2010, not `-`) and on the fi ligature U+FB01
(which NFKD decomposes to `fi` while NFC keeps it). -/
theorem c9_counterexample :
    normalize "a\u2011b" = "a\u2010b" ∧ specNormalize "a\u2011b" = "a-b" ∧
      ("a\u2010b" : String) ≠ "a-b" ∧
      normalize "\uFB01n" = "fin" ∧ specNormalize "\uFB01n" = "\uFB01n" ∧
      ("fin" : String) ≠ "\uFB01n" := by
  decide

/-- C9 witness: the original-geometry part of the theorem applied to a
concrete run. -/
theorem c9_witness :
    ∃ page, ([pageWordMatch] : List Page)[(0 : Nat)]? = some page ∧
      (⟨0, 0, 5, 5⟩ : Rect) ∈ geoRects page :=
  c9_normalization.2.2.2.2.2.2 [pageWordMatch] "s" "m" "c" "links_and_utm"
    (FormatMapInput.parsed [("NNN", "https://t.co/")]) false stWordMatch rfl
    (0, ⟨⟨0, 0, 5, 5⟩,
      "https://t.co/123?utm_source=s&utm_medium=m&utm_campaign=c&utm_content=123", 2, 0⟩)
    (by decide)

end Utmatic
